import Mathlib

/-!
Verification development for the cbb team-identity-resolution and stats-caching
engine (src/lib/teamMatcher.ts and src/lib/statsService.ts), shallowly embedded
in Lean.  JS numbers are modelled as ℚ (NaN-producing divisions become Option or
guarded cases), timestamps as Int milliseconds, and the network/file-system
collaborators as explicit oracle parameters in an environment record.
-/

/-- Word characters of the JS regex class backslash-w: ASCII letters, digits, underscore. -/
def isWordChar (c : Char) : Bool :=
  (65 ≤ c.toNat && c.toNat ≤ 90) || (97 ≤ c.toNat && c.toNat ≤ 122) ||
    (48 ≤ c.toNat && c.toNat ≤ 57) || c == '_'

/-- ASCII model of String.prototype.toLowerCase, applied per character. -/
def jsToLower (c : Char) : Char :=
  if 65 ≤ c.toNat ∧ c.toNat ≤ 90 then Char.ofNat (c.toNat + 32) else c

/-- Lowercased character list of a string (model of s.toLowerCase()). -/
def lowerChars (s : String) : List Char := s.data.map jsToLower

/-- ASCII whitespace, the characters the JS regex backslash-s matches in this data. -/
def isJsWs (c : Char) : Bool := c == ' ' || c == '\t' || c == '\n' || c == '\r'

/-- Inner loop of one Levenshtein matrix row (src/lib/teamMatcher.ts levenshteinDistance):
`diag`/`up` walk along the previous row, `left` is the cell just written; the cell is the
minimum of substitution, insertion and deletion costs, in the order of the source. -/
def levRowGo (c2 : Char) : List Char → List Nat → Nat → List Nat
  | [], _, _ => []
  | _ :: _, [], _ => []
  | _ :: _, [_], _ => []
  | c1 :: cs, diag :: up :: rest, left =>
    let v := if c2 = c1 then diag else min (diag + 1) (min (left + 1) (up + 1))
    v :: levRowGo c2 cs (up :: rest) v

/-- Row i+1 of the Levenshtein matrix from row i: first column holds i+1. -/
def levNextRow (c2 : Char) (s1 : List Char) (prev : List Nat) (i1 : Nat) : List Nat :=
  i1 :: levRowGo c2 s1 prev i1

/-- Levenshtein distance from src/lib/teamMatcher.ts: both strings lowercased, then the
classic dynamic-programming matrix built row by row over s2; the answer is the last cell
of the last row (matrix[s2.length][s1.length]). -/
def levenshteinDistance (str1 str2 : String) : Nat :=
  let s1 := str1.data.map jsToLower
  let s2 := str2.data.map jsToLower
  let final := s2.foldl (fun st c2 => (levNextRow c2 s1 st.1 (st.2 + 1), st.2 + 1))
    (List.range (s1.length + 1), 0)
  final.1.getLastD 0

/-- Similarity score from src/lib/teamMatcher.ts: 1 - distance / maxLength.  When both
strings are empty, maxLength is 0 and the JS division yields NaN; that case is modelled
as none. -/
def calculateSimilarity (name1 name2 : String) : Option ℚ :=
  let distance := levenshteinDistance name1 name2
  let maxLength := max name1.length name2.length
  if maxLength = 0 then none
  else some (1 - (distance : ℚ) / (maxLength : ℚ))

/-- Test that an adjacent character position allows a regex word boundary: true at the
edge of the string or when the neighbouring character is not a word character. -/
def nonWordBoundary : Option Char → Bool
  | none => true
  | some c => !(isWordChar c)

/-- Model of one global JS regex replacement of a word-boundary-delimited token
(e.g. backslash-b university backslash-b).  The scan walks the original text left to
right; `prev` is the character immediately before the scan position (none at the start).
A match requires the token as a literal prefix with non-word (or edge) context on both
sides; matches never overlap and replacements are not rescanned, as with String.replace
with a global regex. -/
def replaceTokGo (tok rep : List Char) : Nat → Option Char → List Char → List Char
  | 0, _, s => s
  | fuel + 1, prev, s =>
    if tok ≠ [] ∧ tok.isPrefixOf s ∧ nonWordBoundary prev
        ∧ nonWordBoundary (s.drop tok.length).head? then
      rep ++ replaceTokGo tok rep fuel tok.getLast? (s.drop tok.length)
    else
      match s with
      | [] => []
      | c :: rest => c :: replaceTokGo tok rep fuel (some c) rest

/-- Entry point of the replacement scan; a fuel of s.length always suffices because
every step consumes at least one character. -/
def replaceTok (tok rep : List Char) (prev : Option Char) (s : List Char) : List Char :=
  replaceTokGo tok rep s.length prev s

/-- Model of String.prototype.trim: strip leading then trailing whitespace. -/
def jsTrim (s : List Char) : List Char :=
  ((s.dropWhile isJsWs).reverse.dropWhile isJsWs).reverse

/-- Characters kept by the replace(/[^a-z0-9]/g, '') step. -/
def isKeptAlnum (c : Char) : Bool :=
  (97 ≤ c.toNat && c.toNat ≤ 122) || (48 ≤ c.toNat && c.toNat ≤ 57)

/-- Team-name normalization from src/lib/teamMatcher.ts: lowercase; remove the
word-boundary tokens university, college (and replace state by st, then remove univ and
single-letter u); strip every character outside [a-z0-9]; trim. -/
def normalizeTeamName (name : String) : String :=
  let s0 := name.data.map jsToLower
  let s1 := replaceTok "university".data [] none s0
  let s2 := replaceTok "college".data [] none s1
  let s3 := replaceTok "state".data "st".data none s2
  let s4 := replaceTok "univ".data [] none s3
  let s5 := replaceTok "u".data [] none s4
  String.mk (jsTrim (s5.filter isKeptAlnum))

/-- Model of a.includes(b): b occurs as a contiguous substring of a. -/
def containsSubstr (a b : String) : Bool := decide (b.data <:+: a.data)

/-- Default threshold of isLikelyMatch in src/lib/teamMatcher.ts. -/
def likelyMatchDefaultThreshold : ℚ := 0.85

/-- Fuzzy same-team test from src/lib/teamMatcher.ts: exact lowercase equality, equal
normalized forms, normalized similarity at least the threshold (a NaN similarity,
modelled as none, fails the comparison as in JS), or containment either way between the
normalized forms. -/
def isLikelyMatch (name1 name2 : String) (threshold : ℚ) : Bool :=
  if String.mk (lowerChars name1) = String.mk (lowerChars name2) then true
  else
    let norm1 := normalizeTeamName name1
    let norm2 := normalizeTeamName name2
    if norm1 = norm2 then true
    else
      let normSimilarity := calculateSimilarity norm1 norm2
      if (match normSimilarity with
          | some v => decide (threshold ≤ v)
          | none => false) then true
      else if containsSubstr norm1 norm2 || containsSubstr norm2 norm1 then true
      else false

/-- Input rows of findSimilarTeams (the per-file summaries of getAllCachedTeams). -/
structure CachedTeamInfo where
  teamId : String
  teamName : String
  gamesCount : Int
deriving DecidableEq, Repr

/-- Output rows of findSimilarTeams. -/
structure TeamMatch where
  teamId : String
  teamName : String
  similarity : ℚ
  gamesCount : Int
deriving DecidableEq, Repr

/-- Comparator handed to Array.prototype.sort in findSimilarTeams: when the two
similarities differ by less than 0.05 it compares games counts (descending), otherwise
similarities (descending). -/
def teamMatchCmp (a b : TeamMatch) : ℚ :=
  if |a.similarity - b.similarity| < 0.05 then (b.gamesCount : ℚ) - (a.gamesCount : ℚ)
  else b.similarity - a.similarity

/-- Stable merge of two sorted runs, keeping the left element when the comparator allows
(model of the stable Array.prototype.sort). -/
def jsMergeGo (le : α → α → Bool) : Nat → List α → List α → List α
  | 0, xs, ys => xs ++ ys
  | _ + 1, [], ys => ys
  | _ + 1, x :: xs, [] => x :: xs
  | fuel + 1, x :: xs, y :: ys =>
    if le x y then x :: jsMergeGo le fuel xs (y :: ys)
    else y :: jsMergeGo le fuel (x :: xs) ys

/-- Entry point of the stable merge; a fuel of the summed lengths always suffices. -/
def jsMerge (le : α → α → Bool) (xs ys : List α) : List α :=
  jsMergeGo le (xs.length + ys.length) xs ys

/-- Stable merge sort used as the model of Array.prototype.sort (split in halves,
merge); fuelled by the list length, which always suffices. -/
def jsMergeSortGo (le : α → α → Bool) : Nat → List α → List α
  | 0, l => l
  | _ + 1, [] => []
  | _ + 1, [a] => [a]
  | fuel + 1, a :: b :: rest =>
    let n := (a :: b :: rest).length / 2
    jsMerge le (jsMergeSortGo le fuel ((a :: b :: rest).take n))
      (jsMergeSortGo le fuel ((a :: b :: rest).drop n))

/-- Entry point of the sort model. -/
def jsMergeSort (le : α → α → Bool) (l : List α) : List α :=
  jsMergeSortGo le l.length l

/-- Boolean order used when sorting TeamMatch rows: a stays before b when the source
comparator returns at most 0. -/
def teamMatchLe (a b : TeamMatch) : Bool := decide (teamMatchCmp a b ≤ 0)

/-- One candidate row of findSimilarTeams: attach the similarity and keep the row only
when it exceeds 0.4 (a NaN similarity, modelled as none, fails the filter as in JS). -/
def findSimilarEntry (searchName : String) (team : CachedTeamInfo) : Option TeamMatch :=
  match calculateSimilarity searchName team.teamName with
  | none => none
  | some v =>
    if (0.4 : ℚ) < v then
      some { teamId := team.teamId, teamName := team.teamName, similarity := v,
             gamesCount := team.gamesCount }
    else none

/-- findSimilarTeams from src/lib/teamMatcher.ts: attach similarity to every candidate,
keep those above 0.4, sort with the two-level comparator, truncate to the limit. -/
def findSimilarTeams (searchName : String) (availableTeams : List CachedTeamInfo)
    (limit : Nat) : List TeamMatch :=
  (jsMergeSort teamMatchLe (availableTeams.filterMap (findSimilarEntry searchName))).take
    limit

/-- Per-half line of one game record (parseInt results, modelled as ℚ). -/
structure HalfLine where
  scored : ℚ
  allowed : ℚ
deriving DecidableEq, Repr

/-- GameStats record from src/lib/types.ts.  The ISO date string is modelled directly as
the epoch-milliseconds integer that new Date(date).getTime() extracts from it. -/
structure GameStats where
  gameId : String
  date : Int
  opponent : String
  opponentId : String
  isHome : Bool
  opponentRating : Option ℚ
  firstHalf : HalfLine
  secondHalf : HalfLine
deriving DecidableEq, Repr

/-- HalfStats record from src/lib/types.ts. -/
structure HalfStats where
  scored : ℚ
  allowed : ℚ
  gamesPlayed : Nat
deriving DecidableEq, Repr

/-- The firstHalf/secondHalf pair returned by the averaging functions. -/
structure AvgPair where
  firstHalf : HalfStats
  secondHalf : HalfStats
deriving DecidableEq, Repr

/-- All-zero averages, the empty-input result. -/
def zeroAvgPair : AvgPair := ⟨⟨0, 0, 0⟩, ⟨0, 0, 0⟩⟩

/-- Model of Math.round(x * 10) / 10 (JS Math.round is the floor of x + 1/2, which is
what Mathlib round computes on ℚ). -/
def round1 (q : ℚ) : ℚ := ((round (q * 10) : ℤ) : ℚ) / 10

/-- calculateAverages from src/lib/statsService.ts. -/
def calculateAverages (games : List GameStats) : AvgPair :=
  if games.length = 0 then zeroAvgPair
  else
    let firstHalfScored := (games.map (fun g => g.firstHalf.scored)).sum
    let firstHalfAllowed := (games.map (fun g => g.firstHalf.allowed)).sum
    let secondHalfScored := (games.map (fun g => g.secondHalf.scored)).sum
    let secondHalfAllowed := (games.map (fun g => g.secondHalf.allowed)).sum
    let count : ℚ := games.length
    ⟨⟨round1 (firstHalfScored / count), round1 (firstHalfAllowed / count), games.length⟩,
     ⟨round1 (secondHalfScored / count), round1 (secondHalfAllowed / count), games.length⟩⟩

/-- strengthOfSchedule record from src/lib/types.ts. -/
structure SoS where
  average : ℚ
  weightedAverage : ℚ
  gamesWithRatings : Nat
deriving DecidableEq, Repr

/-- calculateStrengthOfSchedule from src/lib/statsService.ts.  Math.exp is an external
math routine, passed in as the oracle mathExp. -/
def calculateStrengthOfSchedule (mathExp : ℚ → ℚ) (games : List GameStats) : Option SoS :=
  let gamesWithRatings := games.filter (fun g => g.opponentRating.isSome)
  if gamesWithRatings.length = 0 then none
  else
    let sum := (gamesWithRatings.map (fun g => g.opponentRating.getD 0)).sum
    let average := round1 (sum / (gamesWithRatings.length : ℚ))
    let weights := (List.range gamesWithRatings.length).map
      (fun i => mathExp (-(i : ℚ) * 0.15))
    let weightedSum := ((gamesWithRatings.zip weights).map
      (fun p => p.1.opponentRating.getD 0 * p.2)).sum
    let totalWeight := weights.sum
    some ⟨average, round1 (weightedSum / totalWeight), gamesWithRatings.length⟩

/-- JS truthiness fallback a || b on an optional number: undefined and 0 both fall back. -/
def jsOrOpt (a : Option ℚ) (b : ℚ) : ℚ :=
  match a with
  | none => b
  | some v => if v = 0 then b else v

/-- calculateWeightedAverages from src/lib/statsService.ts.  Note the weight expression
(game.opponentRating || avgOpponentRating) / avgOpponentRating: the JS || also replaces
a 0 rating by the average, so a rated game with rating 0 gets weight 1. -/
def calculateWeightedAverages (games : List GameStats) : AvgPair :=
  if games.length = 0 then zeroAvgPair
  else
    let gamesWithRatings := games.filter (fun g => g.opponentRating.isSome)
    let gamesWithoutRatings := games.filter (fun g => g.opponentRating.isNone)
    if gamesWithRatings.length = 0 then calculateAverages games
    else
      let avgOpponentRating :=
        (gamesWithRatings.map (fun g => g.opponentRating.getD 0)).sum /
          (gamesWithRatings.length : ℚ)
      let weight := fun (g : GameStats) => jsOrOpt g.opponentRating avgOpponentRating / avgOpponentRating
      let firstHalfScoredWeighted :=
        (gamesWithRatings.map (fun g => g.firstHalf.scored * weight g)).sum +
          (gamesWithoutRatings.map (fun g => g.firstHalf.scored)).sum
      let firstHalfAllowedWeighted :=
        (gamesWithRatings.map (fun g => g.firstHalf.allowed * weight g)).sum +
          (gamesWithoutRatings.map (fun g => g.firstHalf.allowed)).sum
      let secondHalfScoredWeighted :=
        (gamesWithRatings.map (fun g => g.secondHalf.scored * weight g)).sum +
          (gamesWithoutRatings.map (fun g => g.secondHalf.scored)).sum
      let secondHalfAllowedWeighted :=
        (gamesWithRatings.map (fun g => g.secondHalf.allowed * weight g)).sum +
          (gamesWithoutRatings.map (fun g => g.secondHalf.allowed)).sum
      let totalWeight :=
        (gamesWithRatings.map weight).sum + (gamesWithoutRatings.length : ℚ)
      ⟨⟨round1 (firstHalfScoredWeighted / totalWeight),
        round1 (firstHalfAllowedWeighted / totalWeight), games.length⟩,
       ⟨round1 (secondHalfScoredWeighted / totalWeight),
        round1 (secondHalfAllowedWeighted / totalWeight), games.length⟩⟩

/-- TeamStatsCache record from src/lib/types.ts, with the ISO lastUpdated timestamp
modelled as epoch milliseconds. -/
structure TeamStatsCache where
  teamId : String
  teamName : String
  lastUpdated : Int
  games : List GameStats
  seasonAverages : AvgPair
  last5Averages : AvgPair
  strengthOfSchedule : Option SoS
deriving DecidableEq, Repr

/-- CACHE_TTL from src/lib/statsService.ts: 6 hours in milliseconds. -/
def CACHE_TTL : Int := 6 * 60 * 60 * 1000

/-- PRELOAD_GRACE_PERIOD from src/lib/statsService.ts: 10 minutes in milliseconds. -/
def PRELOAD_GRACE_PERIOD : Int := 10 * 60 * 1000

/-- isCacheStale from src/lib/statsService.ts (Date.now() passed in as now). -/
def isCacheStale (now : Int) (cache : TeamStatsCache) : Bool :=
  decide (now - cache.lastUpdated > CACHE_TTL)

/-- isCacheFresh from src/lib/statsService.ts (Date.now() passed in as now). -/
def isCacheFresh (now : Int) (cache : TeamStatsCache) : Bool :=
  decide (now - cache.lastUpdated < PRELOAD_GRACE_PERIOD)

/-- Date-descending order used by buildStatsCache's sort comparator
(b.date - a.date ≤ 0 keeps a first). -/
def gameDateLe (a b : GameStats) : Bool := decide (b.date - a.date ≤ 0)

/-- buildStatsCache from src/lib/statsService.ts: sort games date-descending, derive the
aggregates, stamp with the current time. -/
def buildStatsCache (mathExp : ℚ → ℚ) (now : Int) (teamId teamName : String)
    (games : List GameStats) : TeamStatsCache :=
  let sortedGames := jsMergeSort gameDateLe games
  let seasonAverages := calculateAverages sortedGames
  let last5Averages := calculateAverages (sortedGames.take 5)
  let strengthOfSchedule := calculateStrengthOfSchedule mathExp sortedGames
  ⟨teamId, teamName, now, sortedGames, seasonAverages, last5Averages, strengthOfSchedule⟩

/-- createEmptyCache from src/lib/statsService.ts. -/
def createEmptyCache (now : Int) (teamId teamName : String) : TeamStatsCache :=
  ⟨teamId, teamName, now, [], zeroAvgPair, zeroAvgPair, none⟩

/-- One team entry of a game-detail response. -/
structure TeamEntry where
  teamId : String
  seoname : String
  nameShort : String
  isHome : Bool
deriving DecidableEq, Repr

/-- One linescore period of a game-detail response (parseInt'd scores as ℚ). -/
structure Period where
  home : ℚ
  visit : ℚ
deriving DecidableEq, Repr

/-- One contest of a game-detail response (startDate modelled as epoch ms). -/
structure Contest where
  id : String
  startDate : Int
  linescores : List Period
  teams : List TeamEntry
deriving DecidableEq, Repr

/-- NCAAPIGameDetail from src/lib/types.ts. -/
structure GameDetail where
  contests : List Contest
deriving DecidableEq, Repr

/-- parseGameStats from src/lib/statsService.ts.  getPrimaryRating is passed in as the
rating oracle; teams.find(t => t !== team) is modelled with structural inequality. -/
def parseGameStats (rating : String → Option ℚ) (gameDetail : GameDetail)
    (teamId : String) (teamSeoName : Option String) : Option GameStats :=
  match gameDetail.contests.head? with
  | none => none
  | some contest =>
    if contest.linescores.length < 2 then none
    else
      match contest.teams.find? (fun t =>
          t.teamId == teamId || t.seoname == teamId ||
          (match teamSeoName with
           | some s => t.seoname == s
           | none => false)) with
      | none => none
      | some team =>
        match contest.teams.find? (fun t => decide (t ≠ team)) with
        | none => none
        | some opponent =>
          match contest.linescores with
          | period1 :: period2 :: _ =>
            let teamIsHome := team.isHome
            some
              { gameId := contest.id
                date := contest.startDate
                opponent := opponent.nameShort
                opponentId := opponent.teamId
                isHome := teamIsHome
                opponentRating := rating opponent.teamId
                firstHalf :=
                  ⟨if teamIsHome then period1.home else period1.visit,
                   if teamIsHome then period1.visit else period1.home⟩
                secondHalf :=
                  ⟨if teamIsHome then period2.home else period2.visit,
                   if teamIsHome then period2.visit else period2.home⟩ }
          | _ => none

/-- One scoreboard row: game id plus the two teams' SEO slugs. -/
structure SbGame where
  gameID : String
  homeSeo : String
  awaySeo : String
deriving DecidableEq, Repr

/-- Outcome of one day's scoreboard query.  fail is a non-ok response or an error thrown
by the fetch itself (timeout included); failAfterOk is an ok response whose body parse
then throws — the source resets the failure counter on the ok response before parsing,
so that day ends with exactly one recorded failure. -/
inductive DayOutcome where
  | fail
  | failAfterOk
  | ok (games : List SbGame)

/-- Environment of external collaborators: the on-disk cache, the parsed alias file, the
cached-team directory listing, the scoreboard and game-detail feeds, the static ratings
table, Math.exp, and the clock. -/
structure Env where
  load : String → Option TeamStatsCache
  aliases : String → Option String
  cachedTeams : List CachedTeamInfo
  sb : Nat → DayOutcome
  detail : String → Option GameDetail
  rating : String → Option ℚ
  mathExp : ℚ → ℚ
  now : Int

/-- resolveTeamId from src/lib/statsService.ts: aliases[teamId.toLowerCase()] || teamId
(the || also ignores an empty-string alias value, as in JS). -/
def resolveTeamId (env : Env) (teamId : String) : String :=
  match env.aliases (String.mk (lowerChars teamId)) with
  | some a => if a = "" then teamId else a
  | none => teamId

/-- Dots removed, as in replace(/backslash-dot/g, ''). -/
def removeDots (l : List Char) : List Char := l.filter (fun c => !(c == '.'))

/-- Scanner for the whitespace-run collapse: inWs records whether the previous
character belonged to a whitespace run (so the run emits a single hyphen). -/
def collapseWsGo (inWs : Bool) : List Char → List Char
  | [] => []
  | c :: rest =>
    if isJsWs c then
      if inWs then collapseWsGo true rest else '-' :: collapseWsGo true rest
    else c :: collapseWsGo false rest

/-- Whitespace runs collapsed to single hyphens, as in replace(/backslash-s+/g, '-'). -/
def collapseWsToHyphen (l : List Char) : List Char := collapseWsGo false l

/-- Characters kept by replace(/[^a-z0-9-]/g, ''). -/
def keepSeoChars (l : List Char) : List Char := l.filter (fun c => isKeptAlnum c || c == '-')

/-- toSeoName from src/lib/statsService.ts (also the inline seoName construction in
fetchTeamGameHistory): lowercase, drop dots, whitespace runs to hyphens, strip the rest. -/
def toSeoName (name : String) : String :=
  String.mk (keepSeoChars (collapseWsToHyphen (removeDots (lowerChars name))))

/-- One iteration of the suffix-stripping loop: if the name ends with a space plus the
suffix, cut it off and trim. -/
def stripOneSuffix (sfx : List Char) (core : List Char) : List Char :=
  if (' ' :: sfx) <:+ core then jsTrim (core.take (core.length - (sfx.length + 1)))
  else core

/-- One iteration of the prefix-stripping loop: if the name starts with the prefix
(which carries its trailing space), cut it off and trim. -/
def stripOnePrefix (pfx : List Char) (core : List Char) : List Char :=
  if pfx <+: core then jsTrim (core.drop pfx.length)
  else core

/-- The "core name" computation shared by generateSeoVariants and the inline variant
block of fetchTeamGameHistory: sequentially strip the common suffixes then prefixes. -/
def coreNameOf (teamName : String) : List Char :=
  let c0 := lowerChars teamName
  let c1 := stripOneSuffix "university".data c0
  let c2 := stripOneSuffix "college".data c1
  let c3 := stripOneSuffix "state university".data c2
  let c4 := stripOneSuffix "state".data c3
  let c5 := stripOnePrefix "university of ".data c4
  let c6 := stripOnePrefix "the university of ".data c5
  let c7 := stripOnePrefix "college of ".data c6
  stripOnePrefix "the ".data c7

/-- SEO form of an already-lowercased core name (dots out, whitespace to hyphens, strip). -/
def coreSeoOf (core : List Char) : String :=
  String.mk (keepSeoChars (collapseWsToHyphen (removeDots core)))

/-- Scanner for the whitespace split: inWs records whether the previous character
belonged to the same whitespace run (which contributes only one break). -/
def splitWsGo (inWs : Bool) : List Char → List (List Char)
  | [] => [[]]
  | c :: rest =>
    if isJsWs c then
      if inWs then splitWsGo true rest else [] :: splitWsGo true rest
    else
      match splitWsGo false rest with
      | p :: ps => (c :: p) :: ps
      | [] => [[c]]

/-- Model of s.toLowerCase().split(/backslash-s+/): pieces between whitespace runs, with
empty pieces at the edges when the string starts or ends with whitespace. -/
def splitWsJS (l : List Char) : List (List Char) := splitWsGo false l

/-- Whitespace-split word list of the lowercased name, as JS strings. -/
def wordsOf (teamName : String) : List String :=
  (splitWsJS (lowerChars teamName)).map String.mk

/-- Membership-tracking scan behind the JS Set model: keep the first occurrence of
every string, in insertion order. -/
def dedupFirstGo (seen : List String) : List String → List String
  | [] => []
  | a :: rest =>
    if a ∈ seen then dedupFirstGo seen rest
    else a :: dedupFirstGo (seen ++ [a]) rest

/-- First-occurrence deduplication, the order JS Set iteration preserves. -/
def dedupFirst (l : List String) : List String := dedupFirstGo [] l

/-- generateSeoVariants from src/lib/statsService.ts (the resolver's variant list). -/
def generateSeoVariants (teamName : String) : List String :=
  let seoName := toSeoName teamName
  let coreNameSeo := coreSeoOf (coreNameOf teamName)
  let words := wordsOf teamName
  dedupFirst
    ([seoName] ++
      (if coreNameSeo ≠ "" ∧ coreNameSeo ≠ seoName then [coreNameSeo] else []) ++
      (if words.length ≥ 2 then
        (if words.getD 1 "" = "state" ∨ words.getD 1 "" = "st" ∨ words.getD 1 "" = "st."
         then [words.getD 0 "" ++ "-st"] else []) ++
        (if (words.getD 0 "").length > 3
         then [String.mk (removeDots (words.getD 0 "").data)] else [])
      else []))

/-- The inline SEO-variant set built inside fetchTeamGameHistory (richer than
generateSeoVariants), in JS Set insertion order. -/
def fetchSeoVariants (teamId teamName : String) : List String :=
  let seoName := toSeoName teamName
  let coreNameSeo := coreSeoOf (coreNameOf teamName)
  let words := wordsOf teamName
  dedupFirst
    ([seoName, teamId, coreNameSeo] ++
      (if words.length ≥ 2 then
        (if words.getD 1 "" = "state" ∨ words.getD 1 "" = "st" ∨ words.getD 1 "" = "st."
         then [words.getD 0 "" ++ "-st"] else []) ++
        (match words.findIdx? (fun w => w == "state") with
         | some stateIdx =>
           if stateIdx > 0
           then [String.intercalate "-" (words.take stateIdx) ++ "-st"] else []
         | none => []) ++
        [String.mk (removeDots (String.intercalate "-" (words.take 2)).data)] ++
        [String.mk (removeDots (words.getD 0 "").data)]
      else []) ++
      (if words.contains "university" then
        [String.mk (removeDots
          (String.intercalate "-" (words.filter (fun w => w ≠ "university"))).data)]
      else []) ++
      (if words.getD 0 "" = "university" ∧ words.findIdx? (fun w => w == "of") = some 1
          ∧ words.length > 2 then
        [String.mk (removeDots (String.intercalate "-" (words.drop 2)).data)]
      else []))

/-- First segment of a slug before a hyphen: v.split('-')[0]. -/
def firstSeg (v : String) : String := String.mk (v.data.takeWhile (fun c => !(c == '-')))

/-- The scoreboard pre-filter of fetchTeamGameHistory: a row is a potential match when
some variant equals a slug exactly, or first-word-prefix heuristics fire. -/
def sbMatches (variants : List String) (homeSeo awaySeo : String) : Bool :=
  variants.any (fun variant =>
    homeSeo == variant || awaySeo == variant ||
    ((homeSeo.startsWith (firstSeg variant) || awaySeo.startsWith (firstSeg variant)) &&
      ((homeSeo.startsWith (firstSeg variant ++ "-") || homeSeo == firstSeg variant) ||
        (awaySeo.startsWith (firstSeg variant ++ "-") || awaySeo == firstSeg variant))))

/-- MAX_CONSECUTIVE_FAILURES from src/lib/statsService.ts. -/
def MAX_CONSECUTIVE_FAILURES : Nat := 3

/-- State threaded through the day-walk of fetchTeamGameHistory: the collected stats,
the seen gameIds, the consecutive-failure counter, and (instrumentation) the day
offsets actually queried. -/
structure FetchState where
  games : List GameStats
  seen : List String
  consecutiveFailures : Nat
  queried : List Nat
deriving Repr

/-- Per-candidate processing inside a day: skip seen gameIds, fetch the detail, confirm
the team appears (by id or SEO name), then record the gameId as seen and parse. -/
def processCandidate (env : Env) (teamId seoName : String) (st : FetchState)
    (g : SbGame) : FetchState :=
  if g.gameID ∈ st.seen then st
  else
    match env.detail g.gameID with
    | none => st
    | some gameDetail =>
      match gameDetail.contests.head? with
      | none => st
      | some contest =>
        if contest.teams.any (fun t =>
            t.teamId == teamId || t.seoname == teamId || t.seoname == seoName) then
          match parseGameStats env.rating gameDetail teamId (some seoName) with
          | some stats =>
            { st with seen := st.seen ++ [g.gameID], games := st.games ++ [stats] }
          | none => { st with seen := st.seen ++ [g.gameID] }
        else st

/-- One day of the walk: record the query; a transport failure bumps the counter, an ok
response resets it (even when the body parse then fails), and a good body is filtered
and its candidates processed. -/
def processDay (env : Env) (teamId seoName : String) (variants : List String) (i : Nat)
    (st : FetchState) : FetchState :=
  let st1 := { st with queried := st.queried ++ [i] }
  match env.sb i with
  | .fail => { st1 with consecutiveFailures := st1.consecutiveFailures + 1 }
  | .failAfterOk => { st1 with consecutiveFailures := 1 }
  | .ok games =>
    let st2 := { st1 with consecutiveFailures := 0 }
    (games.filter (fun g => sbMatches variants g.homeSeo g.awaySeo)).foldl
      (processCandidate env teamId seoName) st2

/-- The backward day-walk of fetchTeamGameHistory: before each day the circuit breaker
is checked, halting once MAX_CONSECUTIVE_FAILURES consecutive failures accumulated. -/
def fetchWalk (env : Env) (teamId seoName : String) (variants : List String) :
    Nat → Nat → FetchState → FetchState
  | 0, _, st => st
  | remaining + 1, i, st =>
    if st.consecutiveFailures ≥ MAX_CONSECUTIVE_FAILURES then st
    else fetchWalk env teamId seoName variants remaining (i + 1)
      (processDay env teamId seoName variants i st)

/-- fetchTeamGameHistory from src/lib/statsService.ts, returning the full walk state. -/
def fetchTeamGameHistoryS (env : Env) (teamId teamName : String) (daysBack : Nat) :
    FetchState :=
  fetchWalk env teamId (toSeoName teamName) (fetchSeoVariants teamId teamName)
    daysBack 0 ⟨[], [], 0, []⟩

/-- The game list fetchTeamGameHistory actually returns. -/
def fetchTeamGameHistory (env : Env) (teamId teamName : String) (daysBack : Nat) :
    List GameStats :=
  (fetchTeamGameHistoryS env teamId teamName daysBack).games

/-- Strategy-3 loop of tryFindTeamCache: direct cache hit per variant, then an alias
resolution of the variant. -/
def tryFindVariants (env : Env) : List String → Option (TeamStatsCache × String)
  | [] => none
  | v :: rest =>
    match env.load v with
    | some cache => some (cache, v)
    | none =>
      let aliasResolved := resolveTeamId env v
      if aliasResolved ≠ v then
        match env.load aliasResolved with
        | some cache => some (cache, aliasResolved)
        | none => tryFindVariants env rest
      else tryFindVariants env rest

/-- Strategy-4 loop of tryFindTeamCache: fuzzy scan of the cached team names with the
default isLikelyMatch threshold; a missing cache file just moves on. -/
def tryFindFuzzy (env : Env) (teamName : String) :
    List CachedTeamInfo → Option (TeamStatsCache × String)
  | [] => none
  | ct :: rest =>
    if isLikelyMatch teamName ct.teamName likelyMatchDefaultThreshold then
      match env.load ct.teamId with
      | some cache => some (cache, ct.teamId)
      | none => tryFindFuzzy env teamName rest
    else tryFindFuzzy env teamName rest

/-- tryFindTeamCache from src/lib/statsService.ts: exact id, alias-resolved id, SEO
variants (with per-variant alias resolution), then fuzzy scan. -/
def tryFindTeamCache (env : Env) (teamId teamName : String) :
    Option (TeamStatsCache × String) :=
  match env.load teamId with
  | some cache => some (cache, teamId)
  | none =>
    let resolvedId := resolveTeamId env teamId
    let viaAlias :=
      if resolvedId ≠ teamId then
        match env.load resolvedId with
        | some cache => some (cache, resolvedId)
        | none => none
      else none
    match viaAlias with
    | some r => some r
    | none =>
      match tryFindVariants env (generateSeoVariants teamName) with
      | some r => some r
      | none => tryFindFuzzy env teamName env.cachedTeams

/-- TeamStatsResult from src/lib/types.ts. -/
structure TeamStatsResult where
  cache : TeamStatsCache
  stale : Bool
  matched : Bool
  suggestions : Option (List TeamMatch)
deriving Repr

/-- Result of the cache manager plus instrumentation: every fetchTeamGameHistory call it
issued, as (resolvedId, teamName, daysBack) triples in order. -/
structure ManagerOutcome where
  result : TeamStatsResult
  fetchCalls : List (String × String × Nat)
deriving Repr

/-- The gameId-dedup merge of the stale-refresh path of getOrUpdateTeamStats: keep the
existing list, append only fetched games whose gameId is not already present. -/
def mergeNewGames (existing newGames : List GameStats) : List GameStats :=
  let existingGameIds := existing.map (fun g => g.gameId)
  existing ++ newGames.filter (fun g => !(existingGameIds.contains g.gameId))

/-- getOrUpdateTeamStats from src/lib/statsService.ts.  The embedded
fetchTeamGameHistory is total (the source catches every per-day error internally), so
the source's catch branches around it are unreachable and not modelled. -/
def getOrUpdateTeamStats (env : Env) (teamId teamName : String) : ManagerOutcome :=
  match tryFindTeamCache env teamId teamName with
  | some (existingCache, resolvedId) =>
    if existingCache.games.length > 0 ∧ isCacheStale env.now existingCache = false then
      ⟨⟨existingCache, false, true, none⟩, []⟩
    else if existingCache.games.length > 0 ∧ isCacheFresh env.now existingCache then
      ⟨⟨existingCache, false, true, none⟩, []⟩
    else if existingCache.games.length = 0 then
      let games := fetchTeamGameHistory env resolvedId existingCache.teamName 30
      if games.length > 0 then
        ⟨⟨buildStatsCache env.mathExp env.now resolvedId existingCache.teamName games,
          false, true, none⟩, [(resolvedId, existingCache.teamName, 30)]⟩
      else ⟨⟨existingCache, false, true, none⟩, [(resolvedId, existingCache.teamName, 30)]⟩
    else
      let newGames := fetchTeamGameHistory env resolvedId existingCache.teamName 7
      let allGames := mergeNewGames existingCache.games newGames
      ⟨⟨buildStatsCache env.mathExp env.now resolvedId existingCache.teamName allGames,
        false, true, none⟩, [(resolvedId, existingCache.teamName, 7)]⟩
  | none =>
    let games := fetchTeamGameHistory env teamId teamName 30
    if games.length > 0 then
      ⟨⟨buildStatsCache env.mathExp env.now teamId teamName games, false, true, none⟩,
        [(teamId, teamName, 30)]⟩
    else
      let suggestions := findSimilarTeams teamName env.cachedTeams 5
      ⟨⟨createEmptyCache env.now teamId teamName, false, false,
        if suggestions.length > 0 then some suggestions else none⟩,
        [(teamId, teamName, 30)]⟩

/-- Reference recursive presentation of edit distance over the list heads, used to
reason about the row-by-row matrix of levenshteinDistance. -/
def levRec : List Char → List Char → Nat
  | [], ys => ys.length
  | x :: xs, [] => (x :: xs).length
  | x :: xs, y :: ys =>
    if x = y then levRec xs ys
    else 1 + min (levRec xs ys) (min (levRec (x :: xs) ys) (levRec xs (y :: ys)))
termination_by a b => a.length + b.length

/-- Strategy 1 of the spec's ordered resolver: exact-id cache hit on the raw id. -/
def specExactStrategy (env : Env) (teamId : String) : Option (TeamStatsCache × String) :=
  (env.load teamId).map (fun c => (c, teamId))

/-- Strategy 2 of the spec's ordered resolver: cache hit on the alias-resolved raw id. -/
def specAliasStrategy (env : Env) (teamId : String) : Option (TeamStatsCache × String) :=
  match env.aliases (String.mk (lowerChars teamId)) with
  | some rid => (env.load rid).map (fun c => (c, rid))
  | none => none

/-- Strategy 3 of the spec's ordered resolver: each generated variant of the raw name,
and its alias resolution, as a direct cache hit. -/
def specVariantStrategy (env : Env) (teamName : String) :
    Option (TeamStatsCache × String) :=
  (generateSeoVariants teamName).findSome? (fun v =>
    match env.load v with
    | some c => some (c, v)
    | none =>
      let rid := resolveTeamId env v
      if rid ≠ v then (env.load rid).map (fun c => (c, rid)) else none)

/-- Strategy 4 of the spec's ordered resolver: fuzzy scan of all cached team names. -/
def specFuzzyStrategy (env : Env) (teamName : String) :
    Option (TeamStatsCache × String) :=
  env.cachedTeams.findSome? (fun ct =>
    if isLikelyMatch teamName ct.teamName likelyMatchDefaultThreshold then
      (env.load ct.teamId).map (fun c => (c, ct.teamId))
    else none)

/-- Modelled from the spec: the resolver as an ordered strategy list combined by a
first-success combinator. -/
def specResolve (env : Env) (teamId teamName : String) :
    Option (TeamStatsCache × String) :=
  [specExactStrategy env teamId, specAliasStrategy env teamId,
    specVariantStrategy env teamName, specFuzzyStrategy env teamName].findSome? id

/-- Well-formed alias table: no empty-string alias values (an empty value is falsy in
JS, so resolveTeamId would ignore it). -/
def WFAliases (env : Env) : Prop := ∀ k v, env.aliases k = some v → v ≠ ""

/-- Modelled from the spec's weightedAverages description: rated games weighted by
rating / meanRatingOfRatedGames, unrated games weight 1.0, per-half values weight-summed
then divided by the total weight; degrades to calculateAverages when no game is rated. -/
def specWeightedAverages (games : List GameStats) : AvgPair :=
  if games.length = 0 then zeroAvgPair
  else
    let rated := games.filter (fun g => g.opponentRating.isSome)
    if rated.length = 0 then calculateAverages games
    else
      let mean := (rated.map (fun g => g.opponentRating.getD 0)).sum / (rated.length : ℚ)
      let w := fun (g : GameStats) => g.opponentRating.elim (1 : ℚ) (fun r => r / mean)
      let tw := (games.map w).sum
      ⟨⟨round1 ((games.map (fun g => g.firstHalf.scored * w g)).sum / tw),
        round1 ((games.map (fun g => g.firstHalf.allowed * w g)).sum / tw),
        games.length⟩,
       ⟨round1 ((games.map (fun g => g.secondHalf.scored * w g)).sum / tw),
        round1 ((games.map (fun g => g.secondHalf.allowed * w g)).sum / tw),
        games.length⟩⟩

/-- The gameId column of a game list. -/
def gameIds (l : List GameStats) : List String := l.map (fun g => g.gameId)

/-- Well-formed detail feed: a game-detail response's contest carries the queried
gameId — the API contract the source relies on when it keys dedup by the scoreboard
gameID but stores contest.id. -/
def WFDetail (env : Env) : Prop :=
  ∀ gid d, env.detail gid = some d → ∀ c, d.contests.head? = some c → c.id = gid

/-- Well-formed cache store: every stored cache already has pairwise-distinct gameIds. -/
def WFLoad (env : Env) : Prop :=
  ∀ s c, env.load s = some c → (gameIds c.games).Nodup

/-- Transport failure of the scoreboard query for one day offset: a non-ok response or
an error thrown by the fetch (timeout included). -/
def dayFails (env : Env) (i : Nat) : Prop := env.sb i = DayOutcome.fail

/-- Concrete game with rating 20 (the spec's weighted-average scenario). -/
def sampleGame1 : GameStats := ⟨"g-one", 100, "Opp1", "opp1", true, some 20, ⟨30, 25⟩, ⟨35, 28⟩⟩

/-- Concrete game with rating 10 (the spec's weighted-average scenario). -/
def sampleGame2 : GameStats := ⟨"g-two", 200, "Opp2", "opp2", false, some 10, ⟨60, 40⟩, ⟨20, 22⟩⟩

/-- Concrete game whose opponent rating is exactly 0. -/
def sampleGameZeroRated : GameStats := ⟨"g-zero", 300, "OppZ", "oppz", true, some 0, ⟨30, 10⟩, ⟨10, 10⟩⟩

/-- Concrete game with rating 30, paired with the 0-rated one. -/
def sampleGameThirty : GameStats := ⟨"g-thirty", 1, "OppW", "oppw", true, some 30, ⟨60, 0⟩, ⟨0, 0⟩⟩

/-- Concrete unrated game. -/
def sampleGameUnrated : GameStats := ⟨"g-unrated", 400, "OppN", "oppn", true, none, ⟨12, 14⟩, ⟨16, 18⟩⟩

/-- Concrete one-game cache stored under the id duke, last updated at t = 1000 ms. -/
def sampleCache : TeamStatsCache :=
  ⟨"duke", "Duke", 1000, [sampleGame1], calculateAverages [sampleGame1],
   calculateAverages [sampleGame1], none⟩

/-- Environment whose scoreboard feed fails every day and whose stores are empty. -/
def envAllFail : Env :=
  ⟨fun _ => none, fun _ => none, [], fun _ => DayOutcome.fail, fun _ => none,
   fun _ => none, fun _ => 1, 0⟩

/-- Environment holding sampleCache under duke, clock 5 minutes past its lastUpdated. -/
def envGrace : Env :=
  ⟨fun s => if s = "duke" then some sampleCache else none, fun _ => none, [],
   fun _ => DayOutcome.fail, fun _ => none, fun _ => none, fun _ => 1, 301000⟩

/-- Search name of 21 identical characters, giving similarity steps of 1/21 < 0.05. -/
def searchNameNear : String := "aaaaaaaaaaaaaaaaaaaaa"

/-- Two candidates whose similarities to searchNameNear differ by 1/21 (< 0.05) but
whose games counts differ, so the comparator orders them by games count. -/
def teamsNear : List CachedTeamInfo :=
  [⟨"t1", "aaaaaaaaaaaaaaaaaaaab", 1⟩, ⟨"t2", "aaaaaaaaaaaaaaaaaaabb", 5⟩]

/-- Reference form of one Levenshtein matrix row segment: the entry for each column is
the levRec distance between the reversed consumed prefix of s1 (p, extended along the
remaining a) and the reversed consumed prefix of s2 (q). -/
def levSpecRow (q p : List Char) : List Char → List Nat
  | [] => []
  | c :: cs => levRec (c :: p) q :: levSpecRow q (c :: p) cs

/-- Number of candidates passing the strict 0.4 similarity filter of findSimilarTeams
(a NaN similarity, modelled as none, does not pass). -/
def qualifyingCount (searchName : String) (teams : List CachedTeamInfo) : Nat :=
  (teams.filter (fun t =>
    match calculateSimilarity searchName t.teamName with
    | some v => decide ((0.4 : ℚ) < v)
    | none => false)).length

/-- CLAIM C6: calculateAverages and calculateWeightedAverages return the all-zero
result with gamesPlayed = 0 on the empty list, and on every non-empty list
calculateAverages reports gamesPlayed equal to the list length in both halves. -/
theorem c6_empty_averages_and_count :
    calculateAverages [] = zeroAvgPair ∧ calculateWeightedAverages [] = zeroAvgPair ∧
    ∀ games : List GameStats, games ≠ [] →
      (calculateAverages games).firstHalf.gamesPlayed = games.length ∧
      (calculateAverages games).secondHalf.gamesPlayed = games.length := by
  refine ⟨rfl, rfl, ?_⟩
  intro games h
  have hlen : ¬ games.length = 0 := by simpa using h
  simp [calculateAverages, hlen]

/-- Witness for c6_empty_averages_and_count at the one-game list. -/
theorem c6_empty_averages_and_count_witness :
    (calculateAverages [sampleGame1]).firstHalf.gamesPlayed = 1 ∧
    (calculateAverages [sampleGame1]).secondHalf.gamesPlayed = 1 :=
  c6_empty_averages_and_count.2.2 [sampleGame1] (by simp)

/-- CLAIM C3: a cache is stale exactly when its age exceeds the 6-hour TTL (so an age of
TTL + 1 s is stale and an age of exactly TTL is not), and any resolved cache with games
whose age is inside the 10-minute grace window is served unchanged by
getOrUpdateTeamStats with stale = false and no fetch issued. -/
theorem c3_staleness_boundary_and_grace :
    (∀ (now : Int) (c : TeamStatsCache),
      isCacheStale now c = true ↔ CACHE_TTL < now - c.lastUpdated) ∧
    (∀ (now : Int) (c : TeamStatsCache),
      c.lastUpdated = now - CACHE_TTL - 1000 → isCacheStale now c = true) ∧
    (∀ (now : Int) (c : TeamStatsCache),
      c.lastUpdated = now - CACHE_TTL → isCacheStale now c = false) ∧
    (∀ (env : Env) (teamId teamName : String) (cache : TeamStatsCache) (rid : String),
      tryFindTeamCache env teamId teamName = some (cache, rid) →
      0 < cache.games.length →
      env.now - cache.lastUpdated < PRELOAD_GRACE_PERIOD →
      getOrUpdateTeamStats env teamId teamName = ⟨⟨cache, false, true, none⟩, []⟩) := by
  refine ⟨?_, ?_, ?_, ?_⟩
  · intro now c
    simp [isCacheStale]
  · intro now c h
    simp only [isCacheStale, h, CACHE_TTL, decide_eq_true_eq]
    omega
  · intro now c h
    simp only [isCacheStale, h, CACHE_TTL, decide_eq_false_iff_not]
    omega
  · intro env teamId teamName cache rid hfind hlen hgrace
    have hstale : isCacheStale env.now cache = false := by
      simp only [isCacheStale, decide_eq_false_iff_not, not_lt]
      have : PRELOAD_GRACE_PERIOD ≤ CACHE_TTL := by norm_num [PRELOAD_GRACE_PERIOD, CACHE_TTL]
      omega
    simp only [getOrUpdateTeamStats, hfind]
    rw [if_pos ⟨hlen, hstale⟩]

/-- Witness for c3_staleness_boundary_and_grace: boundary instances at now = 21601000,
and the grace branch of the concrete envGrace (cache 5 minutes old). -/
theorem c3_staleness_boundary_and_grace_witness :
    isCacheStale 21601000 ⟨"t", "T", 0, [], zeroAvgPair, zeroAvgPair, none⟩ = true ∧
    isCacheStale 21600000 ⟨"t", "T", 0, [], zeroAvgPair, zeroAvgPair, none⟩ = false ∧
    getOrUpdateTeamStats envGrace "duke" "Duke" = ⟨⟨sampleCache, false, true, none⟩, []⟩ :=
  ⟨c3_staleness_boundary_and_grace.2.1 21601000 _ (by norm_num [CACHE_TTL]),
   c3_staleness_boundary_and_grace.2.2.1 21600000 _ (by norm_num [CACHE_TTL]),
   c3_staleness_boundary_and_grace.2.2.2 envGrace "duke" "Duke" sampleCache "duke"
     (by rfl) (by simp [sampleCache]) (by norm_num [envGrace, sampleCache, PRELOAD_GRACE_PERIOD])⟩

/-- CLAIM C10 (implicit): a raw name whose normalized form is empty fuzzy-matches every
candidate at every threshold, because the empty normalized form is contained in every
normalized candidate name. -/
theorem c10_empty_normalized_matches_everything :
    ∀ (name1 name2 : String) (threshold : ℚ),
      normalizeTeamName name1 = "" → isLikelyMatch name1 name2 threshold = true := by
  intro name1 name2 threshold h
  unfold isLikelyMatch
  split
  · rfl
  · dsimp only
    split
    · rfl
    · split
      · rfl
      · have hsub : containsSubstr (normalizeTeamName name2) (normalizeTeamName name1) = true := by
          rw [h]
          simp [containsSubstr]
        simp [hsub]

/-- Witness for c10_empty_normalized_matches_everything: the raw name University
normalizes to the empty string, so it likely-matches the unrelated name Oregon. -/
theorem c10_empty_normalized_matches_everything_witness :
    isLikelyMatch "University" "Oregon" likelyMatchDefaultThreshold = true :=
  c10_empty_normalized_matches_everything "University" "Oregon" likelyMatchDefaultThreshold (by rfl)

/-- Helper: candidate processing never touches the consecutive-failure counter. -/
theorem processCandidate_fails (env : Env) (tid seo : String) (st : FetchState)
    (g : SbGame) :
    (processCandidate env tid seo st g).consecutiveFailures = st.consecutiveFailures := by
  unfold processCandidate
  repeat first | rfl | split

/-- Helper: a fold of candidate processing never touches the failure counter. -/
theorem foldl_processCandidate_fails (env : Env) (tid seo : String) (l : List SbGame)
    (st : FetchState) :
    (l.foldl (processCandidate env tid seo) st).consecutiveFailures =
      st.consecutiveFailures := by
  induction l generalizing st with
  | nil => rfl
  | cons g l ih =>
    rw [List.foldl_cons, ih, processCandidate_fails]

/-- Helper: candidate processing never touches the query log. -/
theorem processCandidate_queried (env : Env) (tid seo : String) (st : FetchState)
    (g : SbGame) :
    (processCandidate env tid seo st g).queried = st.queried := by
  unfold processCandidate
  repeat first | rfl | split

/-- Helper: a fold of candidate processing never touches the query log. -/
theorem foldl_processCandidate_queried (env : Env) (tid seo : String) (l : List SbGame)
    (st : FetchState) :
    (l.foldl (processCandidate env tid seo) st).queried = st.queried := by
  induction l generalizing st with
  | nil => rfl
  | cons g l ih =>
    rw [List.foldl_cons, ih, processCandidate_queried]

/-- Helper: once the breaker threshold is reached the walk halts immediately, querying
nothing further. -/
theorem fetchWalk_halts (env : Env) (tid seo : String) (var : List String)
    (r i : Nat) (st : FetchState)
    (h : MAX_CONSECUTIVE_FAILURES ≤ st.consecutiveFailures) :
    fetchWalk env tid seo var r i st = st := by
  cases r with
  | zero => rfl
  | succ r =>
    unfold fetchWalk
    rw [if_pos h]

/-- Helper: three initial transport failures drive the walk to the halted state with
exactly days 0, 1, 2 queried and nothing collected. -/
theorem fetchWalk_three_initial_fails (env : Env) (tid seo : String)
    (var : List String) (k : Nat)
    (h0 : env.sb 0 = DayOutcome.fail) (h1 : env.sb 1 = DayOutcome.fail)
    (h2 : env.sb 2 = DayOutcome.fail) :
    fetchWalk env tid seo var (k + 3) 0 ⟨[], [], 0, []⟩ = ⟨[], [], 3, [0, 1, 2]⟩ := by
  have s0 : processDay env tid seo var 0 ⟨[], [], 0, []⟩ = ⟨[], [], 1, [0]⟩ := by
    unfold processDay
    rw [h0]
    rfl
  have s1 : processDay env tid seo var 1 ⟨[], [], 1, [0]⟩ = ⟨[], [], 2, [0, 1]⟩ := by
    unfold processDay
    rw [h1]
    rfl
  have s2 : processDay env tid seo var 2 ⟨[], [], 2, [0, 1]⟩ = ⟨[], [], 3, [0, 1, 2]⟩ := by
    unfold processDay
    rw [h2]
    rfl
  show fetchWalk env tid seo var (k + 1 + 1 + 1) 0 ⟨[], [], 0, []⟩ = _
  rw [fetchWalk, if_neg (by simp [MAX_CONSECUTIVE_FAILURES]), s0,
    fetchWalk, if_neg (by simp [MAX_CONSECUTIVE_FAILURES]), s1,
    fetchWalk, if_neg (by simp [MAX_CONSECUTIVE_FAILURES]), s2]
  exact fetchWalk_halts env tid seo var k 3 _ (by simp [MAX_CONSECUTIVE_FAILURES])

/-- CLAIM C2: the circuit breaker of fetchTeamGameHistory.  A walk whose first three
days all fail in transport queries exactly days 0, 1, 2 (no later day) and returns no
games; an ok day response resets the consecutive-failure counter (even when the body
parse then fails, the counter restarts at one); and once the counter has reached 3 the
walk halts without querying any further day. -/
theorem c2_circuit_breaker :
    (∀ (env : Env) (teamId teamName : String) (daysBack : Nat), 3 ≤ daysBack →
      dayFails env 0 → dayFails env 1 → dayFails env 2 →
      (fetchTeamGameHistoryS env teamId teamName daysBack).queried = [0, 1, 2] ∧
      fetchTeamGameHistory env teamId teamName daysBack = []) ∧
    (∀ (env : Env) (tid seo : String) (var : List String) (i : Nat) (st : FetchState)
      (gs : List SbGame), env.sb i = DayOutcome.ok gs →
      (processDay env tid seo var i st).consecutiveFailures = 0) ∧
    (∀ (env : Env) (tid seo : String) (var : List String) (i : Nat) (st : FetchState),
      env.sb i = DayOutcome.failAfterOk →
      (processDay env tid seo var i st).consecutiveFailures = 1) ∧
    (∀ (env : Env) (tid seo : String) (var : List String) (r i : Nat) (st : FetchState),
      3 ≤ st.consecutiveFailures → fetchWalk env tid seo var r i st = st) := by
  refine ⟨?_, ?_, ?_, ?_⟩
  · intro env teamId teamName daysBack hge h0 h1 h2
    obtain ⟨k, hk⟩ := Nat.exists_eq_add_of_le hge
    have hk' : daysBack = k + 3 := by omega
    subst hk'
    unfold fetchTeamGameHistory fetchTeamGameHistoryS
    rw [fetchWalk_three_initial_fails env teamId (toSeoName teamName)
      (fetchSeoVariants teamId teamName) k h0 h1 h2]
    exact ⟨rfl, rfl⟩
  · intro env tid seo var i st gs h
    unfold processDay
    rw [h]
    exact foldl_processCandidate_fails env tid seo _ _
  · intro env tid seo var i st h
    unfold processDay
    rw [h]
  · intro env tid seo var r i st h
    exact fetchWalk_halts env tid seo var r i st h

/-- Witness for c2_circuit_breaker: in the environment whose feed always fails, a
30-day walk queries only days 0, 1, 2 and returns no games. -/
theorem c2_circuit_breaker_witness :
    (fetchTeamGameHistoryS envAllFail "duke" "Duke" 30).queried = [0, 1, 2] ∧
    fetchTeamGameHistory envAllFail "duke" "Duke" 30 = [] :=
  c2_circuit_breaker.1 envAllFail "duke" "Duke" 30 (by norm_num) rfl rfl rfl

/-- Helper: the strategy-3 loop equals its first-success presentation over the variant
list. -/
theorem tryFindVariants_eq (env : Env) (l : List String) :
    tryFindVariants env l = l.findSome? (fun v =>
      match env.load v with
      | some c => some (c, v)
      | none =>
        let rid := resolveTeamId env v
        if rid ≠ v then (env.load rid).map (fun c => (c, rid)) else none) := by
  induction l with
  | nil => rfl
  | cons v rest ih =>
    rw [List.findSome?_cons]
    unfold tryFindVariants
    cases hv : env.load v with
    | some c => simp [hv]
    | none =>
      simp only [hv]
      by_cases hr : resolveTeamId env v ≠ v
      · rw [if_pos hr, if_pos hr]
        cases hrid : env.load (resolveTeamId env v) with
        | some c => simp [hrid]
        | none => simp [hrid, ih]
      · rw [if_neg hr, if_neg hr]
        simpa using ih

/-- Helper: the strategy-4 loop equals its first-success presentation over the cached
team directory. -/
theorem tryFindFuzzy_eq (env : Env) (teamName : String) (l : List CachedTeamInfo) :
    tryFindFuzzy env teamName l = l.findSome? (fun ct =>
      if isLikelyMatch teamName ct.teamName likelyMatchDefaultThreshold then
        (env.load ct.teamId).map (fun c => (c, ct.teamId))
      else none) := by
  induction l with
  | nil => rfl
  | cons ct rest ih =>
    rw [List.findSome?_cons]
    unfold tryFindFuzzy
    by_cases hm : isLikelyMatch teamName ct.teamName likelyMatchDefaultThreshold
    · rw [if_pos hm, if_pos hm]
      cases hl : env.load ct.teamId with
      | some c => simp [hl]
      | none => simp [hl, ih]
    · rw [if_neg hm, if_neg hm]
      simpa using ih

/-- CLAIM C1: resolver strategy priority.  With a well-formed alias table the resolution
pipeline equals the ordered first-success combination of the four spec strategies
(exact id, alias id, name variants with their alias resolution, fuzzy scan); and
whenever a cache exists under the raw id it is returned with resolvedId equal to the
raw id, for every alias table, variant behaviour and cached-team directory — the later
strategies never influence the result. -/
theorem c1_resolver_priority :
    (∀ (env : Env) (teamId teamName : String), WFAliases env →
      tryFindTeamCache env teamId teamName = specResolve env teamId teamName) ∧
    (∀ (env : Env) (teamId teamName : String) (c : TeamStatsCache),
      env.load teamId = some c →
      tryFindTeamCache env teamId teamName = some (c, teamId)) := by
  constructor
  · intro env teamId teamName hwf
    have hvar : tryFindVariants env (generateSeoVariants teamName) =
        specVariantStrategy env teamName := tryFindVariants_eq env _
    have hfuz : tryFindFuzzy env teamName env.cachedTeams =
        specFuzzyStrategy env teamName := tryFindFuzzy_eq env teamName _
    unfold tryFindTeamCache specResolve
    rw [List.findSome?_cons]
    cases hload : env.load teamId with
    | some c => simp [specExactStrategy, hload]
    | none =>
      have hex : specExactStrategy env teamId = none := by
        simp [specExactStrategy, hload]
      rw [hex]
      rw [List.findSome?_cons]
      have halias :
          (if resolveTeamId env teamId ≠ teamId then
            match env.load (resolveTeamId env teamId) with
            | some cache => some (cache, resolveTeamId env teamId)
            | none => none
          else none) = specAliasStrategy env teamId := by
        unfold specAliasStrategy
        cases hal : env.aliases (String.mk (lowerChars teamId)) with
        | none =>
          have hres : resolveTeamId env teamId = teamId := by
            simp [resolveTeamId, hal]
          simp [hres]
        | some a =>
          have ha : a ≠ "" := hwf _ _ hal
          have hres : resolveTeamId env teamId = a := by
            simp [resolveTeamId, hal, ha]
          by_cases heq : a = teamId
          · subst heq
            simp [hres, hload]
          · rw [hres, if_pos heq]
            cases hla : env.load a with
            | some c => simp [hla]
            | none => simp [hla]
      simp only [halias]
      cases hals : specAliasStrategy env teamId with
      | some r => simp [hals]
      | none =>
        simp only [hals]
        rw [List.findSome?_cons]
        rw [hvar]
        cases hv : specVariantStrategy env teamName with
        | some r => simp [hv]
        | none =>
          simp only [hv]
          rw [List.findSome?_cons]
          rw [hfuz]
          cases hf : specFuzzyStrategy env teamName with
          | some r => simp [hf]
          | none => simp [hf]
  · intro env teamId teamName c hload
    unfold tryFindTeamCache
    rw [hload]

/-- Witness for c1_resolver_priority: in the concrete envGrace the pipeline agrees with
the spec combinator, and the duke cache is found by the exact-id strategy. -/
theorem c1_resolver_priority_witness :
    tryFindTeamCache envGrace "duke" "Duke" = specResolve envGrace "duke" "Duke" ∧
    tryFindTeamCache envGrace "duke" "Duke" = some (sampleCache, "duke") :=
  ⟨c1_resolver_priority.1 envGrace "duke" "Duke"
      (by intro k v h; simp [envGrace] at h),
   c1_resolver_priority.2 envGrace "duke" "Duke" sampleCache (by rfl)⟩

/-- Helper: a sum of a map splits across a Boolean filter and its complement. -/
theorem sum_map_filter_split {α : Type} (p : α → Bool) (f : α → ℚ) (l : List α) :
    ((l.filter p).map f).sum + ((l.filter (fun a => !(p a))).map f).sum =
      (l.map f).sum := by
  induction l with
  | nil => simp
  | cons a l ih =>
    by_cases h : p a
    · simp only [List.filter_cons, h, Bool.not_true, List.map_cons, List.sum_cons,
        if_true, if_false, Bool.false_eq_true, ite_false, ite_true]
      rw [← ih]
      ring
    · simp only [List.filter_cons, h, List.map_cons, List.sum_cons, Bool.not_false,
        Bool.false_eq_true, if_false, if_true, ite_false, ite_true]
      rw [← ih]
      ring

/-- Helper: the sum of the constant-1 map is the length. -/
theorem sum_map_one {α : Type} (l : List α) :
    (l.map (fun _ => (1 : ℚ))).sum = (l.length : ℚ) := by
  induction l with
  | nil => simp
  | cons a l ih =>
    simp [ih]
    ring

/-- Helper: the isNone filter is the complement of the isSome filter. -/
theorem filter_isNone_eq (games : List GameStats) :
    games.filter (fun g => g.opponentRating.isNone) =
      games.filter (fun g => !(g.opponentRating.isSome)) := by
  apply List.filter_congr
  intro g _
  cases g.opponentRating <;> rfl

/-- Helper: the JS || fallback is the identity on a nonzero present rating. -/
theorem jsOrOpt_some_ne (r b : ℚ) (hr : r ≠ 0) : jsOrOpt (some r) b = r := by
  simp [jsOrOpt, hr]

/-- Helper: with no zero ratings, a weighted sum over all games (spec weighting) splits
into the source's rated part (JS || weight) plus its unrated part. -/
theorem weighted_sum_aux (avg : ℚ) (games : List GameStats)
    (hz : ∀ g ∈ games, g.opponentRating ≠ some 0) (x : GameStats → ℚ) :
    (games.map (fun g => x g * g.opponentRating.elim (1 : ℚ) (fun r => r / avg))).sum =
    ((games.filter (fun g => g.opponentRating.isSome)).map
        (fun g => x g * (jsOrOpt g.opponentRating avg / avg))).sum +
      ((games.filter (fun g => g.opponentRating.isNone)).map x).sum := by
  induction games with
  | nil => simp
  | cons g l ih =>
    have hzl : ∀ a ∈ l, a.opponentRating ≠ some 0 := fun a ha =>
      hz a (List.mem_cons_of_mem _ ha)
    simp only [List.map_cons, List.sum_cons, List.filter_cons]
    cases hg : g.opponentRating with
    | none =>
      simp only [hg, Option.elim_none, Option.isSome_none, Option.isNone_none,
        Bool.false_eq_true, if_false, if_true, ite_true, ite_false,
        List.map_cons, List.sum_cons]
      rw [ih hzl]
      ring
    | some r =>
      have hr : r ≠ 0 := by
        intro h0
        exact (hz g (List.mem_cons_self g l)) (h0 ▸ hg)
      simp only [hg, Option.elim_some, Option.isSome_some, Option.isNone_some,
        Bool.false_eq_true, if_false, if_true, ite_true, ite_false,
        List.map_cons, List.sum_cons, jsOrOpt_some_ne r avg hr]
      rw [ih hzl]
      ring

/-- Helper: with no zero ratings, the spec's total weight equals the source's rated
weight sum plus the unrated count. -/
theorem weighted_tw_aux (avg : ℚ) (games : List GameStats)
    (hz : ∀ g ∈ games, g.opponentRating ≠ some 0) :
    (games.map (fun g => g.opponentRating.elim (1 : ℚ) (fun r => r / avg))).sum =
    ((games.filter (fun g => g.opponentRating.isSome)).map
        (fun g => jsOrOpt g.opponentRating avg / avg)).sum +
      ((games.filter (fun g => g.opponentRating.isNone)).length : ℚ) := by
  induction games with
  | nil => simp
  | cons g l ih =>
    have hzl : ∀ a ∈ l, a.opponentRating ≠ some 0 := fun a ha =>
      hz a (List.mem_cons_of_mem _ ha)
    simp only [List.map_cons, List.sum_cons, List.filter_cons]
    cases hg : g.opponentRating with
    | none =>
      simp only [hg, Option.elim_none, Option.isSome_none, Option.isNone_none,
        Bool.false_eq_true, if_false, if_true, ite_true, ite_false,
        List.map_cons, List.sum_cons, List.length_cons]
      rw [ih hzl]
      push_cast
      ring
    | some r =>
      have hr : r ≠ 0 := by
        intro h0
        exact (hz g (List.mem_cons_self g l)) (h0 ▸ hg)
      simp only [hg, Option.elim_some, Option.isSome_some, Option.isNone_some,
        Bool.false_eq_true, if_false, if_true, ite_true, ite_false,
        List.map_cons, List.sum_cons, jsOrOpt_some_ne r avg hr]
      rw [ih hzl]
      ring

/-- Helper: concrete evaluation of the source's weighted averages on the 0/30-rated
pair — the 0-rated game gets the JS || fallback weight 1, giving 50. -/
theorem c5_code_value :
    (calculateWeightedAverages [sampleGameZeroRated, sampleGameThirty]).firstHalf.scored
      = 50 := by
  simp only [calculateWeightedAverages, sampleGameZeroRated, sampleGameThirty]
  norm_num [jsOrOpt, round1, round_eq]

/-- Helper: concrete evaluation of the spec formula on the same pair — weights 0 and 2,
giving 60. -/
theorem c5_spec_value :
    (specWeightedAverages [sampleGameZeroRated, sampleGameThirty]).firstHalf.scored
      = 60 := by
  simp only [specWeightedAverages, sampleGameZeroRated, sampleGameThirty]
  norm_num [round1, round_eq]

/-- Counterexample for CLAIM C5: a rated game whose rating is exactly 0 is weighted 1.0
by the source (the JS || fallback), not rating/mean: with ratings [0, 30] the code
returns a first-half scored average of 50 where the claimed rating/mean weighting
yields 60. -/
theorem c5_counterexample :
    calculateWeightedAverages [sampleGameZeroRated, sampleGameThirty] ≠
      specWeightedAverages [sampleGameZeroRated, sampleGameThirty] := by
  intro h
  have h1 := c5_code_value
  rw [h, c5_spec_value] at h1
  norm_num at h1

/-- CLAIM C5 (amended): with no rated game calculateWeightedAverages returns exactly
calculateAverages; and on every list with at least one rated game, a nonzero mean
rating, and no rating equal to 0, it equals the spec formula — each rated game weighted
by rating / meanRatingOfRatedGames, unrated games weight 1.0, weighted sums divided by
the total weight.  (A rated game with rating exactly 0 instead gets weight 1.0, the
JS || fallback — see the counterexample.) -/
theorem c5_weighted_averages :
    (∀ games : List GameStats,
      (games.filter (fun g => g.opponentRating.isSome)).length = 0 →
      calculateWeightedAverages games = calculateAverages games) ∧
    (∀ games : List GameStats,
      (games.filter (fun g => g.opponentRating.isSome)).length ≠ 0 →
      ((games.filter (fun g => g.opponentRating.isSome)).map
          (fun g => g.opponentRating.getD 0)).sum /
        ((games.filter (fun g => g.opponentRating.isSome)).length : ℚ) ≠ 0 →
      (∀ g ∈ games, g.opponentRating ≠ some 0) →
      calculateWeightedAverages games = specWeightedAverages games) := by
  constructor
  · intro games h
    by_cases hlen : games.length = 0
    · rw [List.length_eq_zero.mp hlen]
      rfl
    · unfold calculateWeightedAverages
      rw [if_neg hlen]
      dsimp only
      rw [if_pos h]
  · intro games hrated hmean hz
    have hlen : ¬ games.length = 0 := by
      intro h0
      rw [List.length_eq_zero.mp h0] at hrated
      simp at hrated
    unfold calculateWeightedAverages specWeightedAverages
    rw [if_neg hlen, if_neg hlen]
    dsimp only
    rw [if_neg hrated, if_neg hrated]
    rw [weighted_sum_aux _ games hz (fun g => g.firstHalf.scored),
      weighted_sum_aux _ games hz (fun g => g.firstHalf.allowed),
      weighted_sum_aux _ games hz (fun g => g.secondHalf.scored),
      weighted_sum_aux _ games hz (fun g => g.secondHalf.allowed),
      weighted_tw_aux _ games hz]

/-- Witness for c5_weighted_averages at the spec's own scenario: ratings [20, 10]
(mean 15, weights 4/3 and 2/3); the weighted first-half scored average is 40 where the
unweighted mean is 45. -/
theorem c5_weighted_averages_witness :
    calculateWeightedAverages [sampleGame1, sampleGame2] =
      specWeightedAverages [sampleGame1, sampleGame2] ∧
    (calculateWeightedAverages [sampleGame1, sampleGame2]).firstHalf.scored = 40 ∧
    (calculateAverages [sampleGame1, sampleGame2]).firstHalf.scored = 45 := by
  refine ⟨c5_weighted_averages.2 [sampleGame1, sampleGame2] ?_ ?_ ?_, ?_, ?_⟩
  · simp [sampleGame1, sampleGame2]
  · simp [sampleGame1, sampleGame2]
    norm_num
  · simp [sampleGame1, sampleGame2]
  · simp only [calculateWeightedAverages, sampleGame1, sampleGame2]
    norm_num [jsOrOpt, round1, round_eq]
  · simp only [calculateAverages, sampleGame1, sampleGame2]
    norm_num [round1, round_eq]


/-- Helper: the fuelled stable merge is a permutation of the concatenation. -/
theorem jsMergeGo_perm {α : Type} (le : α → α → Bool) :
    ∀ (f : Nat) (xs ys : List α), xs.length + ys.length ≤ f →
      List.Perm (jsMergeGo le f xs ys) (xs ++ ys) := by
  intro f
  induction f with
  | zero =>
    intro xs ys h
    exact List.Perm.refl _
  | succ f ih =>
    intro xs ys h
    match xs, ys with
    | [], ys => simp [jsMergeGo]
    | x :: xs, [] => simp [jsMergeGo]
    | x :: xs, y :: ys =>
      simp only [jsMergeGo]
      by_cases hle : le x y
      · rw [if_pos hle]
        have := ih xs (y :: ys) (by simp at h ⊢; omega)
        simpa using this.cons x
      · rw [if_neg hle]
        have h1 := ih (x :: xs) ys (by simp at h ⊢; omega)
        have h2 : List.Perm (y :: (x :: xs ++ ys)) ((x :: xs) ++ (y :: ys)) :=
          (List.perm_middle).symm
        exact (h1.cons y).trans h2

/-- Helper: the stable merge is a permutation of the concatenation. -/
theorem jsMerge_perm {α : Type} (le : α → α → Bool) (xs ys : List α) :
    List.Perm (jsMerge le xs ys) (xs ++ ys) :=
  jsMergeGo_perm le _ xs ys (Nat.le_refl _)

/-- Helper: the fuelled sort is a permutation of its input. -/
theorem jsMergeSortGo_perm {α : Type} (le : α → α → Bool) :
    ∀ (f : Nat) (l : List α), l.length ≤ f → List.Perm (jsMergeSortGo le f l) l := by
  intro f
  induction f with
  | zero => intro l h; exact List.Perm.refl _
  | succ f ih =>
    intro l h
    match l with
    | [] => exact List.Perm.refl _
    | [a] => exact List.Perm.refl _
    | a :: b :: rest =>
      simp only [jsMergeSortGo]
      have hlen : (a :: b :: rest).length = rest.length + 2 := by simp
      have htake : ((a :: b :: rest).take ((a :: b :: rest).length / 2)).length ≤ f := by
        simp only [List.length_take]
        simp at h ⊢
        omega
      have hdrop : ((a :: b :: rest).drop ((a :: b :: rest).length / 2)).length ≤ f := by
        simp only [List.length_drop]
        simp at h ⊢
        omega
      have hm := jsMerge_perm le
        (jsMergeSortGo le f ((a :: b :: rest).take ((a :: b :: rest).length / 2)))
        (jsMergeSortGo le f ((a :: b :: rest).drop ((a :: b :: rest).length / 2)))
      refine hm.trans ?_
      refine (List.Perm.append (ih _ htake) (ih _ hdrop)).trans ?_
      rw [List.take_append_drop]

/-- Helper: the sort model is a permutation of its input. -/
theorem jsMergeSort_perm {α : Type} (le : α → α → Bool) (l : List α) :
    List.Perm (jsMergeSort le l) l :=
  jsMergeSortGo_perm le _ l (Nat.le_refl _)

/-- Helper: the findSimilarTeams comparator is antisymmetric as a function. -/
theorem teamMatchCmp_neg (a b : TeamMatch) : teamMatchCmp b a = -(teamMatchCmp a b) := by
  unfold teamMatchCmp
  by_cases h : |a.similarity - b.similarity| < 0.05
  · rw [if_pos h, if_pos (by rwa [abs_sub_comm])]
    ring
  · rw [if_neg h, if_neg (by rw [abs_sub_comm]; exact h)]
    ring

/-- Helper: the Boolean sort order derived from the comparator is total. -/
theorem teamMatchLe_total (a b : TeamMatch) (h : teamMatchLe a b = false) :
    teamMatchLe b a = true := by
  simp only [teamMatchLe, decide_eq_false_iff_not, not_le] at h
  simp only [teamMatchLe, decide_eq_true_eq]
  rw [teamMatchCmp_neg]
  linarith

/-- Helper: the head of a merge is the head of one of the two runs. -/
theorem jsMergeGo_head {α : Type} (le : α → α → Bool) :
    ∀ (f : Nat) (xs ys : List α),
      (jsMergeGo le f xs ys).head? = xs.head? ∨
      (jsMergeGo le f xs ys).head? = ys.head? := by
  intro f xs ys
  match f, xs, ys with
  | 0, [], ys => right; rfl
  | 0, x :: xs, ys => left; rfl
  | f + 1, [], ys => right; rfl
  | f + 1, x :: xs, [] => left; rfl
  | f + 1, x :: xs, y :: ys =>
    simp only [jsMergeGo]
    by_cases hle : le x y
    · rw [if_pos hle]; left; rfl
    · rw [if_neg hle]; right; rfl

/-- Helper: merging two comparator-ordered runs yields a comparator-ordered run,
given totality of the order. -/
theorem jsMergeGo_chain {α : Type} (le : α → α → Bool)
    (htot : ∀ a b, le a b = false → le b a = true) :
    ∀ (f : Nat) (xs ys : List α), xs.length + ys.length ≤ f →
      List.Chain' (fun a b => le a b = true) xs →
      List.Chain' (fun a b => le a b = true) ys →
      List.Chain' (fun a b => le a b = true) (jsMergeGo le f xs ys) := by
  intro f
  induction f with
  | zero =>
    intro xs ys h _ _
    have hx : xs = [] := List.length_eq_zero.mp (by omega)
    have hy : ys = [] := List.length_eq_zero.mp (by omega)
    subst hx
    subst hy
    exact List.chain'_nil
  | succ f ih =>
    intro xs ys h hxs hys
    match xs, ys with
    | [], ys => simpa [jsMergeGo] using hys
    | x :: xs, [] => simpa [jsMergeGo] using hxs
    | x :: xs, y :: ys =>
      simp only [jsMergeGo]
      by_cases hle : le x y
      · rw [if_pos hle]
        have hxs2 := (List.chain'_cons'.mp hxs).2
        have hhead := (List.chain'_cons'.mp hxs).1
        refine List.chain'_cons'.mpr
          ⟨?_, ih xs (y :: ys) (by simp at h ⊢; omega) hxs2 hys⟩
        intro z hz
        rcases jsMergeGo_head le f xs (y :: ys) with hh | hh
        · rw [hh] at hz
          exact hhead z hz
        · rw [hh] at hz
          simp only [List.head?_cons, Option.mem_def, Option.some_inj] at hz
          subst hz
          exact hle
      · rw [if_neg hle]
        have hys2 := (List.chain'_cons'.mp hys).2
        have hyhead := (List.chain'_cons'.mp hys).1
        refine List.chain'_cons'.mpr
          ⟨?_, ih (x :: xs) ys (by simp at h ⊢; omega) hxs hys2⟩
        intro z hz
        rcases jsMergeGo_head le f (x :: xs) ys with hh | hh
        · rw [hh] at hz
          simp only [List.head?_cons, Option.mem_def, Option.some_inj] at hz
          subst hz
          exact htot x y (by simpa using hle)
        · rw [hh] at hz
          exact hyhead z hz

/-- Helper: the sort output is comparator-ordered between adjacent elements. -/
theorem jsMergeSortGo_chain {α : Type} (le : α → α → Bool)
    (htot : ∀ a b, le a b = false → le b a = true) :
    ∀ (f : Nat) (l : List α), l.length ≤ f →
      List.Chain' (fun a b => le a b = true) (jsMergeSortGo le f l) := by
  intro f
  induction f with
  | zero =>
    intro l h
    have hl : l = [] := List.length_eq_zero.mp (by omega)
    subst hl
    exact List.chain'_nil
  | succ f ih =>
    intro l h
    match l with
    | [] => exact List.chain'_nil
    | [a] => exact List.chain'_singleton a
    | a :: b :: rest =>
      simp only [jsMergeSortGo]
      have htake : ((a :: b :: rest).take ((a :: b :: rest).length / 2)).length ≤ f := by
        simp only [List.length_take]
        simp at h ⊢
        omega
      have hdrop : ((a :: b :: rest).drop ((a :: b :: rest).length / 2)).length ≤ f := by
        simp only [List.length_drop]
        simp at h ⊢
        omega
      have hp1 := jsMergeSortGo_perm le f
        ((a :: b :: rest).take ((a :: b :: rest).length / 2)) htake
      have hp2 := jsMergeSortGo_perm le f
        ((a :: b :: rest).drop ((a :: b :: rest).length / 2)) hdrop
      exact jsMergeGo_chain le htot _ _ _
        (by rw [hp1.length_eq, hp2.length_eq]) (ih _ htake) (ih _ hdrop)

/-- Helper: the candidate rows surviving the similarity filter are counted by
qualifyingCount. -/
theorem filterMap_findSimilarEntry_length (searchName : String)
    (teams : List CachedTeamInfo) :
    (teams.filterMap (findSimilarEntry searchName)).length =
      qualifyingCount searchName teams := by
  induction teams with
  | nil => rfl
  | cons t ts ih =>
    simp only [List.filterMap_cons, qualifyingCount, List.filter_cons] at ih ⊢
    cases hc : calculateSimilarity searchName t.teamName with
    | none => simpa [findSimilarEntry, hc] using ih
    | some v =>
      by_cases hv : (0.4 : ℚ) < v
      · simpa [findSimilarEntry, hc, hv] using ih
      · simpa [findSimilarEntry, hc, hv] using ih

/-- CLAIM C7 (amended): findSimilarTeams returns exactly the candidates whose
similarity to the raw name exceeds 0.4 (none-similarity excluded), capped at the limit;
every returned row carries its true similarity and stems from the input; and adjacent
rows are ordered by the source comparator — similarity descending, except that rows
whose similarities differ by less than 0.05 are ordered by games count descending.  It
is not sorted by similarity alone (see the counterexample). -/
theorem c7_suggestion_ranking :
    ∀ (searchName : String) (teams : List CachedTeamInfo) (limit : Nat),
      (∀ m ∈ findSimilarTeams searchName teams limit,
        (0.4 : ℚ) < m.similarity ∧
        calculateSimilarity searchName m.teamName = some m.similarity ∧
        (⟨m.teamId, m.teamName, m.gamesCount⟩ : CachedTeamInfo) ∈ teams) ∧
      (findSimilarTeams searchName teams limit).length =
        min limit (qualifyingCount searchName teams) ∧
      List.Chain' (fun a b => teamMatchCmp a b ≤ 0)
        (findSimilarTeams searchName teams limit) := by
  intro searchName teams limit
  refine ⟨?_, ?_, ?_⟩
  · intro m hm
    unfold findSimilarTeams at hm
    have hm2 : m ∈ jsMergeSort teamMatchLe (teams.filterMap (findSimilarEntry searchName)) :=
      List.mem_of_mem_take hm
    have hm3 : m ∈ teams.filterMap (findSimilarEntry searchName) :=
      (jsMergeSort_perm _ _).mem_iff.mp hm2
    obtain ⟨t, ht, hf⟩ := List.mem_filterMap.mp hm3
    cases hc : calculateSimilarity searchName t.teamName with
    | none =>
      simp only [findSimilarEntry, hc] at hf
      exact absurd hf (by simp)
    | some v =>
      simp only [findSimilarEntry, hc] at hf
      by_cases hv : (0.4 : ℚ) < v
      · rw [if_pos hv] at hf
        have hm4 : m = ⟨t.teamId, t.teamName, v, t.gamesCount⟩ := by
          have := Option.some_inj.mp hf
          exact this.symm
        subst hm4
        exact ⟨hv, hc, ht⟩
      · rw [if_neg hv] at hf
        exact absurd hf (by simp)
  · unfold findSimilarTeams
    rw [List.length_take, (jsMergeSort_perm _ _).length_eq,
      filterMap_findSimilarEntry_length]
  · unfold findSimilarTeams jsMergeSort
    have hch := jsMergeSortGo_chain teamMatchLe teamMatchLe_total
      (teams.filterMap (findSimilarEntry searchName)).length
      (teams.filterMap (findSimilarEntry searchName)) (Nat.le_refl _)
    have hrel : ∀ a b : TeamMatch, teamMatchLe a b = true → teamMatchCmp a b ≤ 0 := by
      intro a b h
      simpa [teamMatchLe] using h
    exact List.Chain'.take (hch.imp hrel) limit

set_option maxRecDepth 10000 in
/-- Helper: concrete similarity of the 21-a search name to its 1-edit variant. -/
theorem c7_simA : calculateSimilarity searchNameNear "aaaaaaaaaaaaaaaaaaaab"
    = some (20/21) := by
  have h : levenshteinDistance searchNameNear "aaaaaaaaaaaaaaaaaaaab" = 1 := by decide
  have hl1 : searchNameNear.length = 21 := by decide
  have hl2 : ("aaaaaaaaaaaaaaaaaaaab" : String).length = 21 := by decide
  simp only [calculateSimilarity, h, hl1, hl2]
  norm_num

set_option maxRecDepth 10000 in
/-- Helper: concrete similarity of the 21-a search name to its 2-edit variant. -/
theorem c7_simB : calculateSimilarity searchNameNear "aaaaaaaaaaaaaaaaaaabb"
    = some (19/21) := by
  have h : levenshteinDistance searchNameNear "aaaaaaaaaaaaaaaaaaabb" = 2 := by decide
  have hl1 : searchNameNear.length = 21 := by decide
  have hl2 : ("aaaaaaaaaaaaaaaaaaabb" : String).length = 21 := by decide
  simp only [calculateSimilarity, h, hl1, hl2]
  norm_num

/-- Helper: concrete evaluation of findSimilarTeams on the near-tie pair: the 19/21
candidate with more games sorts before the 20/21 candidate. -/
theorem c7_eval : findSimilarTeams searchNameNear teamsNear 5 =
    [⟨"t2", "aaaaaaaaaaaaaaaaaaabb", 19/21, 5⟩,
     ⟨"t1", "aaaaaaaaaaaaaaaaaaaab", 20/21, 1⟩] := by
  have hle : teamMatchLe ⟨"t1", "aaaaaaaaaaaaaaaaaaaab", 20/21, 1⟩
      ⟨"t2", "aaaaaaaaaaaaaaaaaaabb", 19/21, 5⟩ = false := by
    simp only [teamMatchLe, teamMatchCmp, decide_eq_false_iff_not, not_le]
    norm_num
    split
    · norm_num
    · rename_i hcond
      refine absurd ?_ hcond
      rw [show |(1 : ℚ)/21| = 1/21 from abs_of_pos (by norm_num)]
      norm_num
  unfold findSimilarTeams teamsNear
  simp only [List.filterMap_cons, List.filterMap_nil, findSimilarEntry, c7_simA, c7_simB]
  rw [if_pos (by norm_num), if_pos (by norm_num)]
  simp only [jsMergeSort, jsMergeSortGo, jsMerge, jsMergeGo, List.length_cons,
    List.length_nil, List.take, List.drop, hle, if_false, Bool.false_eq_true]

/-- Counterexample for CLAIM C7: the output is not sorted by similarity descending —
with similarities 19/21 and 20/21 differing by less than 0.05, the games-count
tie-break puts the lower-similarity candidate first. -/
theorem c7_counterexample :
    (findSimilarTeams searchNameNear teamsNear 5).map TeamMatch.similarity
      = [19/21, 20/21] ∧
    ¬ ((20 : ℚ)/21 ≤ 19/21) := by
  rw [c7_eval]
  refine ⟨rfl, by norm_num⟩

/-- Witness for c7_suggestion_ranking at the concrete near-tie input, including the
membership conclusion for the 20/21 candidate and the exact output length. -/
theorem c7_suggestion_ranking_witness :
    ((0.4 : ℚ) < 20/21 ∧
      calculateSimilarity searchNameNear "aaaaaaaaaaaaaaaaaaaab" = some (20/21) ∧
      (⟨"t1", "aaaaaaaaaaaaaaaaaaaab", 1⟩ : CachedTeamInfo) ∈ teamsNear) ∧
    (findSimilarTeams searchNameNear teamsNear 5).length =
      min 5 (qualifyingCount searchNameNear teamsNear) :=
  ⟨(c7_suggestion_ranking searchNameNear teamsNear 5).1
      ⟨"t1", "aaaaaaaaaaaaaaaaaaaab", 20/21, 1⟩ (by rw [c7_eval]; simp),
   (c7_suggestion_ranking searchNameNear teamsNear 5).2.1⟩


/-- Helper: characters kept by the alphanumeric strip are regex word characters. -/
theorem kept_isWordChar (c : Char) (h : isKeptAlnum c = true) : isWordChar c = true := by
  simp only [isKeptAlnum, Bool.or_eq_true, Bool.and_eq_true, decide_eq_true_eq] at h
  simp only [isWordChar, Bool.or_eq_true, Bool.and_eq_true, decide_eq_true_eq, beq_iff_eq]
  tauto

/-- Helper: characters kept by the alphanumeric strip are not whitespace. -/
theorem kept_not_ws (c : Char) (h : isKeptAlnum c = true) : isJsWs c = false := by
  by_contra hws
  rw [Bool.not_eq_false] at hws
  simp only [isJsWs, Bool.or_eq_true, beq_iff_eq] at hws
  rcases hws with ((h1 | h1) | h1) | h1 <;> subst h1 <;> exact absurd h (by decide)

/-- Helper: lowercasing fixes every kept (lowercase/digit) character. -/
theorem jsToLower_kept (c : Char) (h : isKeptAlnum c = true) : jsToLower c = c := by
  simp only [isKeptAlnum, Bool.or_eq_true, Bool.and_eq_true, decide_eq_true_eq] at h
  unfold jsToLower
  rw [if_neg]
  rcases h with h | h <;> omega

/-- Helper: dropWhile is the identity when no element satisfies the predicate. -/
theorem dropWhile_no {p : Char → Bool} {l : List Char}
    (h : ∀ c ∈ l, p c = false) : l.dropWhile p = l := by
  cases l with
  | nil => rfl
  | cons c rest =>
    rw [List.dropWhile_cons, if_neg]
    simp [h c (List.mem_cons_self c rest)]

/-- Helper: trim is the identity on whitespace-free text. -/
theorem jsTrim_no_ws (l : List Char) (h : ∀ c ∈ l, isJsWs c = false) : jsTrim l = l := by
  unfold jsTrim
  rw [dropWhile_no h, dropWhile_no (fun c hc => h c (List.mem_reverse.mp hc)),
    List.reverse_reverse]

/-- Helper: when the character before the scan position is a word character and the
rest of the text is all word characters, no boundary can open, so the replacement scan
changes nothing. -/
theorem replaceTokGo_word_prev (tok rep : List Char) :
    ∀ (fuel : Nat) (pc : Char) (s : List Char),
      isWordChar pc = true → (∀ c ∈ s, isWordChar c = true) →
      replaceTokGo tok rep fuel (some pc) s = s := by
  intro fuel
  induction fuel with
  | zero => intro pc s _ _; rfl
  | succ fuel ih =>
    intro pc s hpc hall
    simp only [replaceTokGo]
    rw [if_neg]
    · cases s with
      | nil => rfl
      | cons c rest =>
        show c :: replaceTokGo tok rep fuel (some c) rest = c :: rest
        rw [ih c rest (hall c (List.mem_cons_self c rest))
          (fun d hd => hall d (List.mem_cons_of_mem c hd))]
    · intro hcond
      have hb := hcond.2.2.1
      simp [nonWordBoundary, hpc] at hb

/-- Helper: on all-word-character text different from the token itself, the
replacement is the identity — an interior match lacks a boundary on one side. -/
theorem replaceTokGo_word_none (tok rep : List Char)
    (fuel : Nat) (s : List Char)
    (hall : ∀ c ∈ s, isWordChar c = true) (hne : s ≠ tok) :
    replaceTokGo tok rep fuel none s = s := by
  cases fuel with
  | zero => rfl
  | succ fuel =>
    simp only [replaceTokGo]
    rw [if_neg]
    · cases s with
      | nil => rfl
      | cons c rest =>
        show c :: replaceTokGo tok rep fuel (some c) rest = c :: rest
        rw [replaceTokGo_word_prev tok rep fuel c rest
          (hall c (List.mem_cons_self c rest))
          (fun d hd => hall d (List.mem_cons_of_mem c hd))]
    · intro hcond
      obtain ⟨h1, h2, h3, h4⟩ := hcond
      have hpre : tok <+: s := List.isPrefixOf_iff_prefix.mp h2
      obtain ⟨t, rfl⟩ := hpre
      cases t with
      | nil => exact hne (by simp)
      | cons a t2 =>
        rw [List.drop_left] at h4
        have ha : isWordChar a = true := hall a (by simp)
        simp [nonWordBoundary, ha] at h4

/-- Helper: entry-point form of the no-op replacement on all-word-character text. -/
theorem replaceTok_word_none (tok rep : List Char)
    (s : List Char) (hall : ∀ c ∈ s, isWordChar c = true) (hne : s ≠ tok) :
    replaceTok tok rep none s = s :=
  replaceTokGo_word_none tok rep s.length s hall hne

/-- Helper: trim only removes characters. -/
theorem mem_jsTrim {c : Char} {l : List Char} (h : c ∈ jsTrim l) : c ∈ l := by
  unfold jsTrim at h
  rw [List.mem_reverse] at h
  have h2 := (List.dropWhile_sublist isJsWs).subset h
  rw [List.mem_reverse] at h2
  exact (List.dropWhile_sublist isJsWs).subset h2

/-- Helper: every character of a normalized name lies in [a-z0-9]. -/
theorem normalize_chars_kept (x : String) :
    ∀ c ∈ (normalizeTeamName x).data, isKeptAlnum c = true := by
  intro c hc
  unfold normalizeTeamName at hc
  have hc2 : c ∈ jsTrim ((replaceTok "u".data [] none
      (replaceTok "univ".data [] none (replaceTok "state".data "st".data none
      (replaceTok "college".data [] none (replaceTok "university".data [] none
      (x.data.map jsToLower)))))).filter isKeptAlnum) := hc
  exact (List.mem_filter.mp (mem_jsTrim hc2)).2

/-- Helper: distinct strings have distinct character lists. -/
theorem str_ne_data {a b : String} (h : a ≠ b) : a.data ≠ b.data := by
  intro hd
  apply h
  cases a
  cases b
  exact congrArg String.mk hd

/-- CLAIM C8 (amended): normalizeTeamName is idempotent on every string whose
normalized form is not itself one of the five stripped tokens university, college,
state, univ, u — the normalized form has only [a-z0-9] characters, so a second pass can
only match a token against the whole string.  (When the normalized form equals a token,
a second pass strips it again — see the counterexample.) -/
theorem c8_normalize_idempotent :
    ∀ x : String,
      normalizeTeamName x ∉ (["university", "college", "state", "univ", "u"] : List String) →
      normalizeTeamName (normalizeTeamName x) = normalizeTeamName x := by
  intro x hx
  simp only [List.mem_cons, List.not_mem_nil, or_false, not_or] at hx
  obtain ⟨n1, n2, n3, n4, n5⟩ := hx
  set y := normalizeTeamName x with hy
  have hker : ∀ c ∈ y.data, isKeptAlnum c = true := normalize_chars_kept x
  have hword : ∀ c ∈ y.data, isWordChar c = true :=
    fun c hc => kept_isWordChar c (hker c hc)
  have hnws : ∀ c ∈ y.data, isJsWs c = false :=
    fun c hc => kept_not_ws c (hker c hc)
  have e0 : y.data.map jsToLower = y.data := by
    rw [List.map_congr_left (fun c hc => jsToLower_kept c (hker c hc))]
    simp
  unfold normalizeTeamName
  dsimp only
  rw [e0,
    replaceTok_word_none _ _ _ hword (str_ne_data n1),
    replaceTok_word_none _ _ _ hword (str_ne_data n2),
    replaceTok_word_none _ _ _ hword (str_ne_data n3),
    replaceTok_word_none _ _ _ hword (str_ne_data n4),
    replaceTok_word_none _ _ _ hword (str_ne_data n5),
    List.filter_eq_self.mpr hker,
    jsTrim_no_ws _ hnws]

set_option maxRecDepth 4096 in
/-- Counterexample for CLAIM C8: normalize(\"uni versity\") is \"university\" — the
alphanumeric strip glues the two words into a fresh token — and a second normalize
erases it, so normalize of normalize differs from normalize. -/
theorem c8_counterexample :
    normalizeTeamName "uni versity" = "university" ∧
    normalizeTeamName (normalizeTeamName "uni versity") = "" ∧
    normalizeTeamName (normalizeTeamName "uni versity") ≠ normalizeTeamName "uni versity" :=
  ⟨rfl, rfl, by decide⟩

set_option maxRecDepth 4096 in
/-- Witness for c8_normalize_idempotent at \"Missouri State\" (normalized form
\"missourist\", not a stripped token). -/
theorem c8_normalize_idempotent_witness :
    normalizeTeamName (normalizeTeamName "Missouri State") = normalizeTeamName "Missouri State" :=
  c8_normalize_idempotent "Missouri State" (by decide)


/-- Helper: reference distance to the empty list is the length. -/
theorem levRec_nil_left (ys : List Char) : levRec [] ys = ys.length := by
  simp [levRec]

/-- Helper: reference distance from the empty list is the length. -/
theorem levRec_nil_right (xs : List Char) : levRec xs [] = xs.length := by
  cases xs <;> simp [levRec]

/-- Helper: symmetry of the reference edit distance, by strong induction on the
summed lengths. -/
theorem levRec_comm_aux :
    ∀ (n : Nat) (a b : List Char), a.length + b.length ≤ n → levRec a b = levRec b a := by
  intro n
  induction n with
  | zero =>
    intro a b h
    have ha : a = [] := List.length_eq_zero.mp (by omega)
    have hb : b = [] := List.length_eq_zero.mp (by omega)
    subst ha
    subst hb
    rfl
  | succ n ih =>
    intro a b h
    match a, b with
    | [], b => rw [levRec_nil_left, levRec_nil_right]
    | a :: as, [] => rw [levRec_nil_left, levRec_nil_right]
    | x :: xs, y :: ys =>
      simp only [levRec]
      by_cases hxy : x = y
      · subst hxy
        rw [if_pos rfl, if_pos rfl]
        exact ih xs ys (by simp at h; omega)
      · rw [if_neg hxy, if_neg (fun hyx => hxy hyx.symm)]
        have h1 : levRec xs ys = levRec ys xs := ih xs ys (by simp at h; omega)
        have h2 : levRec (x :: xs) ys = levRec ys (x :: xs) :=
          ih (x :: xs) ys (by simp at h ⊢; omega)
        have h3 : levRec xs (y :: ys) = levRec (y :: ys) xs :=
          ih xs (y :: ys) (by simp at h ⊢; omega)
        rw [h1, h2, h3]
        omega

/-- Helper: the reference edit distance is symmetric. -/
theorem levRec_comm (a b : List Char) : levRec a b = levRec b a :=
  levRec_comm_aux (a.length + b.length) a b (Nat.le_refl _)

/-- Helper: the reference edit distance of a list to itself is 0. -/
theorem levRec_self (a : List Char) : levRec a a = 0 := by
  induction a with
  | nil => simp [levRec]
  | cons c cs ih =>
    simp only [levRec, if_pos rfl]
    exact ih

/-- Helper: the reference edit distance is at most the longer length. -/
theorem levRec_le_max :
    ∀ (n : Nat) (a b : List Char), a.length + b.length ≤ n →
      levRec a b ≤ max a.length b.length := by
  intro n
  induction n with
  | zero =>
    intro a b h
    have ha : a = [] := List.length_eq_zero.mp (by omega)
    have hb : b = [] := List.length_eq_zero.mp (by omega)
    subst ha
    subst hb
    simp [levRec_nil_left]
  | succ n ih =>
    intro a b h
    match a, b with
    | [], b => simp [levRec_nil_left]
    | a :: as, [] => simp [levRec_nil_right]
    | x :: xs, y :: ys =>
      simp only [levRec, List.length_cons]
      by_cases hxy : x = y
      · rw [if_pos hxy]
        have := ih xs ys (by simp at h; omega)
        omega
      · rw [if_neg hxy]
        have h1 := ih xs ys (by simp at h; omega)
        omega


/-- Helper: the inner row loop realizes the reference row of reversed-prefix
distances — diag/up/left line up with substitution, deletion and insertion. -/
theorem levRowGo_spec :
    ∀ (a p q : List Char) (c2 : Char),
      levRowGo c2 a (levRec p q :: levSpecRow q p a) (levRec p (c2 :: q)) =
        levSpecRow (c2 :: q) p a := by
  intro a
  induction a with
  | nil => intro p q c2; rfl
  | cons c cs ih =>
    intro p q c2
    show levRowGo c2 (c :: cs)
        (levRec p q :: levRec (c :: p) q :: levSpecRow q (c :: p) cs)
        (levRec p (c2 :: q)) =
      levRec (c :: p) (c2 :: q) :: levSpecRow (c2 :: q) (c :: p) cs
    simp only [levRowGo]
    have hv : (if c2 = c then levRec p q
        else min (levRec p q + 1)
          (min (levRec p (c2 :: q) + 1) (levRec (c :: p) q + 1))) =
        levRec (c :: p) (c2 :: q) := by
      simp only [levRec]
      by_cases h : c2 = c
      · rw [if_pos h, if_pos h.symm]
      · rw [if_neg h, if_neg (fun h2 => h h2.symm)]
        omega
    rw [hv, ih (c :: p) q c2]

/-- Helper: the reference row against the empty consumed prefix is an arithmetic
range, matching the matrix initialisation. -/
theorem levSpecRow_nil_q :
    ∀ (a p : List Char), levSpecRow [] p a = List.range' (p.length + 1) a.length := by
  intro a
  induction a with
  | nil => intro p; rfl
  | cons c cs ih =>
    intro p
    show levRec (c :: p) [] :: levSpecRow [] (c :: p) cs = _
    rw [levRec_nil_right, ih (c :: p)]
    simp [List.range', List.length_cons]

/-- Helper: the first matrix row equals the reference row at the empty prefix. -/
theorem range_eq_row (s1 : List Char) :
    List.range (s1.length + 1) = levRec [] [] :: levSpecRow [] [] s1 := by
  rw [List.range_eq_range', levSpecRow_nil_q s1 [], levRec_nil_left]
  rfl

/-- Helper: the row-by-row fold maintains the reference row for the reversed consumed
prefix of s2. -/
theorem levFold_spec (s1 : List Char) :
    ∀ (t q : List Char),
      t.foldl (fun st c2 => (levNextRow c2 s1 st.1 (st.2 + 1), st.2 + 1))
        (levRec [] q :: levSpecRow q [] s1, q.length) =
      (levRec [] (t.reverse ++ q) :: levSpecRow (t.reverse ++ q) [] s1,
        (t.reverse ++ q).length) := by
  intro t
  induction t with
  | nil => intro q; simp
  | cons c2 t2 ih =>
    intro q
    rw [List.foldl_cons]
    have hq : levRec [] (c2 :: q) = q.length + 1 := by
      rw [levRec_nil_left]
      simp
    have hstep : (levNextRow c2 s1 (levRec [] q :: levSpecRow q [] s1) (q.length + 1),
        q.length + 1) =
        (levRec [] (c2 :: q) :: levSpecRow (c2 :: q) [] s1, (c2 :: q).length) := by
      unfold levNextRow
      rw [← hq, levRowGo_spec s1 [] q c2]
      simp [hq]
    rw [hstep, ih (c2 :: q)]
    have harr : (c2 :: t2).reverse ++ q = t2.reverse ++ (c2 :: q) := by simp
    rw [harr]

/-- Helper: the last cell of a reference row is the distance of the full (reversed)
first string. -/
theorem levSpecRow_getLastD :
    ∀ (a p q : List Char) (d : Nat),
      (levRec p q :: levSpecRow q p a).getLastD d = levRec (a.reverse ++ p) q := by
  intro a
  induction a with
  | nil =>
    intro p q d
    show (levRec p q :: levSpecRow q p []).getLastD d = levRec ([].reverse ++ p) q
    show [levRec p q].getLastD d = levRec ([].reverse ++ p) q
    simp
  | cons c cs ih =>
    intro p q d
    show (levRec p q :: levRec (c :: p) q :: levSpecRow q (c :: p) cs).getLastD d = _
    rw [List.getLastD_cons, ih (c :: p) q (levRec p q)]
    congr 1
    simp

/-- Helper: the dynamic-programming matrix of the source computes the reference edit
distance of the lowercased strings (reversed, as the matrix grows prefixes on the
right while the reference recursion peels heads). -/
theorem levenshteinDistance_eq_levRec (str1 str2 : String) :
    levenshteinDistance str1 str2 =
      levRec (str1.data.map jsToLower).reverse (str2.data.map jsToLower).reverse := by
  unfold levenshteinDistance
  dsimp only
  rw [range_eq_row (str1.data.map jsToLower)]
  have hf := levFold_spec (str1.data.map jsToLower) (str2.data.map jsToLower) []
  simp only [List.length_nil, List.append_nil] at hf
  rw [hf]
  have hl := levSpecRow_getLastD (str1.data.map jsToLower) []
    (str2.data.map jsToLower).reverse 0
  rw [List.append_nil] at hl
  exact hl

/-- Helper: levenshteinDistance is symmetric. -/
theorem levenshteinDistance_comm (a b : String) :
    levenshteinDistance a b = levenshteinDistance b a := by
  rw [levenshteinDistance_eq_levRec, levenshteinDistance_eq_levRec, levRec_comm]

/-- Helper: levenshteinDistance of a string to itself is 0. -/
theorem levenshteinDistance_self (x : String) : levenshteinDistance x x = 0 := by
  rw [levenshteinDistance_eq_levRec, levRec_self]

/-- Helper: levenshteinDistance is bounded by the longer string length (per-character
lowercasing preserves lengths). -/
theorem levenshteinDistance_le (a b : String) :
    levenshteinDistance a b ≤ max a.length b.length := by
  rw [levenshteinDistance_eq_levRec]
  have h := levRec_le_max
    ((a.data.map jsToLower).reverse.length + (b.data.map jsToLower).reverse.length)
    (a.data.map jsToLower).reverse (b.data.map jsToLower).reverse (Nat.le_refl _)
  simpa [List.length_reverse, List.length_map] using h

/-- Counterexample for CLAIM C9: on two empty strings maxLength is 0 and the JS
division produces NaN (modelled none), so similarity(x,x) = 1 fails at x = \"\" and the
value lies in no interval. -/
theorem c9_counterexample :
    calculateSimilarity "" "" = none ∧ calculateSimilarity "" "" ≠ some 1 := by
  refine ⟨rfl, ?_⟩
  intro h
  rw [show calculateSimilarity "" "" = none from rfl] at h
  exact Option.noConfusion h

/-- CLAIM C9 (amended): whenever the two strings are not both empty,
calculateSimilarity a b is exactly 1 - levenshteinDistance(a,b)/max(len a, len b); it
is symmetric for all inputs; similarity(x,x) = 1 for every non-empty x; and every
produced value lies in [0,1].  (For two empty strings the division is NaN, modelled
none — see the counterexample.) -/
theorem c9_similarity :
    (∀ a b : String, 0 < max a.length b.length →
      calculateSimilarity a b =
        some (1 - (levenshteinDistance a b : ℚ) / ((max a.length b.length : ℕ) : ℚ))) ∧
    (∀ a b : String, calculateSimilarity a b = calculateSimilarity b a) ∧
    (∀ x : String, x ≠ "" → calculateSimilarity x x = some 1) ∧
    (∀ (a b : String) (v : ℚ), calculateSimilarity a b = some v → 0 ≤ v ∧ v ≤ 1) := by
  have hformula : ∀ a b : String, max a.length b.length ≠ 0 →
      calculateSimilarity a b =
        some (1 - (levenshteinDistance a b : ℚ) / ((max a.length b.length : ℕ) : ℚ)) := by
    intro a b h
    unfold calculateSimilarity
    dsimp only
    rw [if_neg h]
  refine ⟨?_, ?_, ?_, ?_⟩
  · intro a b h
    exact hformula a b (by omega)
  · intro a b
    unfold calculateSimilarity
    dsimp only
    rw [Nat.max_comm, levenshteinDistance_comm]
  · intro x hx
    have hlen : x.length ≠ 0 := by
      intro h0
      apply hx
      cases x with
      | mk d =>
        have hd : d = [] := List.length_eq_zero.mp h0
        rw [hd]
    rw [hformula x x (by omega), levenshteinDistance_self]
    norm_num
  · intro a b v hv
    have hne : max a.length b.length ≠ 0 := by
      intro h0
      unfold calculateSimilarity at hv
      dsimp only at hv
      rw [if_pos h0] at hv
      exact Option.noConfusion hv
    rw [hformula a b hne] at hv
    have hvv := Option.some_inj.mp hv
    subst hvv
    have hle := levenshteinDistance_le a b
    have hpos : (0 : ℚ) < ((max a.length b.length : ℕ) : ℚ) := by
      exact_mod_cast Nat.pos_of_ne_zero hne
    have hd : (levenshteinDistance a b : ℚ) ≤ ((max a.length b.length : ℕ) : ℚ) := by
      exact_mod_cast hle
    have h1 : (levenshteinDistance a b : ℚ) / ((max a.length b.length : ℕ) : ℚ) ≤ 1 :=
      (div_le_one hpos).mpr hd
    have h2 : (0 : ℚ) ≤ (levenshteinDistance a b : ℚ) / ((max a.length b.length : ℕ) : ℚ) :=
      div_nonneg (by positivity) (le_of_lt hpos)
    constructor <;> linarith

/-- Witness for c9_similarity at concrete strings: self-similarity 1 on \"ab\",
symmetry, bounds, and the exact formula for \"ab\" vs \"xy\". -/
theorem c9_similarity_witness :
    calculateSimilarity "ab" "ab" = some 1 ∧
    calculateSimilarity "ab" "ba" = calculateSimilarity "ba" "ab" ∧
    (0 ≤ (1 : ℚ) ∧ (1 : ℚ) ≤ 1) ∧
    calculateSimilarity "ab" "xy" =
      some (1 - (levenshteinDistance "ab" "xy" : ℚ) /
        ((max ("ab" : String).length ("xy" : String).length : ℕ) : ℚ)) :=
  ⟨c9_similarity.2.2.1 "ab" (by decide),
   c9_similarity.2.1 "ab" "ba",
   c9_similarity.2.2.2 "ab" "ab" 1 (c9_similarity.2.2.1 "ab" (by decide)),
   c9_similarity.1 "ab" "xy" (by decide)⟩

/-- A successfully parsed game record carries the id of the detail response's first contest. -/
theorem parseGameStats_gameId (rating : String → Option ℚ) (gd : GameDetail)
    (tid : String) (seo : Option String) (s : GameStats) (c : Contest)
    (hc : gd.contests.head? = some c) (hp : parseGameStats rating gd tid seo = some s) :
    s.gameId = c.id := by
  unfold parseGameStats at hp
  rw [hc] at hp
  repeat' split at hp
  all_goals
    first
      | exact Option.noConfusion hp
      | (rw [← Option.some_inj.mp hp]
         simp_all)

/-- Processing one scoreboard candidate preserves the walk invariant: collected gameIds are pairwise distinct and all recorded in the seen set. -/
theorem processCandidate_inv (env : Env) (tid seo : String) (hWF : WFDetail env)
    (st : FetchState) (g : SbGame)
    (h1 : (gameIds st.games).Nodup) (h2 : ∀ a ∈ st.games, a.gameId ∈ st.seen) :
    (gameIds (processCandidate env tid seo st g).games).Nodup ∧
    (∀ a ∈ (processCandidate env tid seo st g).games,
      a.gameId ∈ (processCandidate env tid seo st g).seen) := by
  unfold processCandidate
  split
  · exact ⟨h1, h2⟩
  · rename_i hseen
    split
    · exact ⟨h1, h2⟩
    · rename_i gd hgd
      split
      · exact ⟨h1, h2⟩
      · rename_i contest hcontest
        split
        · split
          · rename_i stats hstats
            have hid : stats.gameId = g.gameID := by
              rw [parseGameStats_gameId env.rating gd tid (some seo) stats contest
                hcontest hstats]
              exact hWF g.gameID gd hgd contest hcontest
            constructor
            · simp only [gameIds, List.map_append, List.map_cons, List.map_nil]
              rw [List.nodup_append]
              refine ⟨h1, by simp, ?_⟩
              intro a ha hb
              simp only [List.mem_cons, List.not_mem_nil, or_false] at hb
              subst hb
              rw [hid] at ha
              obtain ⟨a2, ha2, hga⟩ := List.mem_map.mp ha
              exact hseen (hga ▸ h2 a2 ha2)
            · intro a ha
              rcases List.mem_append.mp ha with ha | ha
              · exact List.mem_append_left _ (h2 a ha)
              · simp only [List.mem_cons, List.not_mem_nil, or_false] at ha
                subst ha
                rw [hid]
                exact List.mem_append_right _ (by simp)
          · refine ⟨h1, ?_⟩
            intro a ha
            exact List.mem_append_left _ (h2 a ha)
        · exact ⟨h1, h2⟩

/-- The candidate fold of one day preserves the walk invariant. -/
theorem foldl_processCandidate_inv (env : Env) (tid seo : String) (hWF : WFDetail env) :
    ∀ (l : List SbGame) (st : FetchState),
      (gameIds st.games).Nodup → (∀ a ∈ st.games, a.gameId ∈ st.seen) →
      (gameIds (l.foldl (processCandidate env tid seo) st).games).Nodup ∧
      (∀ a ∈ (l.foldl (processCandidate env tid seo) st).games,
        a.gameId ∈ (l.foldl (processCandidate env tid seo) st).seen) := by
  intro l
  induction l with
  | nil => intro st h1 h2; exact ⟨h1, h2⟩
  | cons g l ih =>
    intro st h1 h2
    rw [List.foldl_cons]
    have hstep := processCandidate_inv env tid seo hWF st g h1 h2
    exact ih _ hstep.1 hstep.2

/-- Processing one day preserves the walk invariant. -/
theorem processDay_inv (env : Env) (tid seo : String) (var : List String) (i : Nat)
    (hWF : WFDetail env) (st : FetchState)
    (h1 : (gameIds st.games).Nodup) (h2 : ∀ a ∈ st.games, a.gameId ∈ st.seen) :
    (gameIds (processDay env tid seo var i st).games).Nodup ∧
    (∀ a ∈ (processDay env tid seo var i st).games,
      a.gameId ∈ (processDay env tid seo var i st).seen) := by
  unfold processDay
  split
  · exact ⟨h1, h2⟩
  · exact ⟨h1, h2⟩
  · exact foldl_processCandidate_inv env tid seo hWF _ _ h1 h2

/-- The full day walk keeps collected gameIds pairwise distinct. -/
theorem fetchWalk_inv (env : Env) (tid seo : String) (var : List String)
    (hWF : WFDetail env) :
    ∀ (r i : Nat) (st : FetchState),
      (gameIds st.games).Nodup → (∀ a ∈ st.games, a.gameId ∈ st.seen) →
      (gameIds (fetchWalk env tid seo var r i st).games).Nodup := by
  intro r
  induction r with
  | zero => intro i st h1 _; exact h1
  | succ r ih =>
    intro i st h1 h2
    unfold fetchWalk
    split
    · exact h1
    · have hstep := processDay_inv env tid seo var i hWF st h1 h2
      exact ih (i + 1) _ hstep.1 hstep.2

/-- Every fetched game-history list has pairwise-distinct gameIds, under the detail-feed contract. -/
theorem fetchTeamGameHistory_nodup (env : Env) (id name : String) (n : Nat)
    (hWF : WFDetail env) :
    (gameIds (fetchTeamGameHistory env id name n)).Nodup := by
  unfold fetchTeamGameHistory fetchTeamGameHistoryS
  exact fetchWalk_inv env id (toSeoName name) (fetchSeoVariants id name) hWF n 0
    ⟨[], [], 0, []⟩ (by simp [gameIds]) (by simp)

/-- The merged list's gameIds come from the existing or the fetched list. -/
theorem mergeNewGames_subset (ex new : List GameStats) :
    gameIds (mergeNewGames ex new) ⊆ gameIds ex ++ gameIds new := by
  unfold mergeNewGames gameIds
  intro a ha
  rw [List.map_append] at ha
  rcases List.mem_append.mp ha with ha | ha
  · exact List.mem_append_left _ ha
  · obtain ⟨g, hg, rfl⟩ := List.mem_map.mp ha
    exact List.mem_append_right _ (List.mem_map_of_mem _ (List.mem_of_mem_filter hg))

/-- The gameId-dedup merge of two lists with distinct gameIds again has distinct gameIds. -/
theorem mergeNewGames_nodup (ex new : List GameStats)
    (hex : (gameIds ex).Nodup) (hnew : (gameIds new).Nodup) :
    (gameIds (mergeNewGames ex new)).Nodup := by
  unfold mergeNewGames gameIds
  rw [List.map_append, List.nodup_append]
  refine ⟨hex, ?_, ?_⟩
  · exact hnew.sublist ((List.filter_sublist new).map (fun g => g.gameId))
  · intro a ha hb
    obtain ⟨g, hg, rfl⟩ := List.mem_map.mp hb
    have hpred := (List.mem_filter.mp hg).2
    simp only [Bool.not_eq_true'] at hpred
    simp at hpred
    obtain ⟨x, hx, hxe⟩ := List.mem_map.mp ha
    exact hpred x hx hxe

/-- buildStatsCache only sorts its games, so distinct gameIds are preserved. -/
theorem buildStatsCache_nodup (mexp : ℚ → ℚ) (now : Int) (id name : String)
    (games : List GameStats) (h : (gameIds games).Nodup) :
    (gameIds (buildStatsCache mexp now id name games).games).Nodup := by
  unfold buildStatsCache
  dsimp only
  unfold gameIds at h ⊢
  have hp := jsMergeSort_perm gameDateLe games
  exact ((hp.map (fun g => g.gameId)).nodup_iff).mpr h

/-- Any cache produced by the variant strategy was read from the store. -/
theorem tryFindVariants_load (env : Env) :
    ∀ (l : List String) (c : TeamStatsCache) (rid : String),
      tryFindVariants env l = some (c, rid) → ∃ s, env.load s = some c := by
  intro l
  induction l with
  | nil => intro c rid h; exact Option.noConfusion h
  | cons v rest ih =>
    intro c rid h
    unfold tryFindVariants at h
    cases hv : env.load v with
    | some cache =>
      rw [hv] at h
      have h2 : some (cache, v) = some (c, rid) := h
      exact ⟨v, by rw [hv]; exact congrArg (fun p => some p.1) (Option.some_inj.mp h2)⟩
    | none =>
      rw [hv] at h
      by_cases hne : resolveTeamId env v ≠ v
      · rw [if_pos hne] at h
        cases hr : env.load (resolveTeamId env v) with
        | some cache =>
          rw [hr] at h
          have h2 : some (cache, resolveTeamId env v) = some (c, rid) := h
          exact ⟨resolveTeamId env v,
            by rw [hr]; exact congrArg (fun p => some p.1) (Option.some_inj.mp h2)⟩
        | none =>
          rw [hr] at h
          exact ih c rid h
      · rw [if_neg hne] at h
        exact ih c rid h

/-- Any cache produced by the fuzzy strategy was read from the store. -/
theorem tryFindFuzzy_load (env : Env) (name : String) :
    ∀ (l : List CachedTeamInfo) (c : TeamStatsCache) (rid : String),
      tryFindFuzzy env name l = some (c, rid) → ∃ s, env.load s = some c := by
  intro l
  induction l with
  | nil => intro c rid h; exact Option.noConfusion h
  | cons ct rest ih =>
    intro c rid h
    unfold tryFindFuzzy at h
    by_cases hm : isLikelyMatch name ct.teamName likelyMatchDefaultThreshold
    · rw [if_pos hm] at h
      cases hl : env.load ct.teamId with
      | some cache =>
        rw [hl] at h
        have h2 : some (cache, ct.teamId) = some (c, rid) := h
        exact ⟨ct.teamId, by rw [hl]; exact congrArg (fun p => some p.1) (Option.some_inj.mp h2)⟩
      | none =>
        rw [hl] at h
        exact ih c rid h
    · rw [if_neg hm] at h
      exact ih c rid h

/-- Any cache the resolver returns was read from the store. -/
theorem tryFindTeamCache_load (env : Env) (id name : String) (c : TeamStatsCache)
    (rid : String) (h : tryFindTeamCache env id name = some (c, rid)) :
    ∃ s, env.load s = some c := by
  unfold tryFindTeamCache at h
  cases hload : env.load id with
  | some cache =>
    rw [hload] at h
    have h2 : some (cache, id) = some (c, rid) := h
    exact ⟨id, by rw [hload]; exact congrArg (fun p => some p.1) (Option.some_inj.mp h2)⟩
  | none =>
    rw [hload] at h
    dsimp only at h
    have hrest :
        (match tryFindVariants env (generateSeoVariants name) with
          | some r => some r
          | none => tryFindFuzzy env name env.cachedTeams) = some (c, rid) →
        ∃ s, env.load s = some c := by
      intro h3
      cases hvv : tryFindVariants env (generateSeoVariants name) with
      | some r =>
        rw [hvv] at h3
        have h4 : some r = some (c, rid) := h3
        rw [Option.some_inj.mp h4] at hvv
        exact tryFindVariants_load env _ c rid hvv
      | none =>
        rw [hvv] at h3
        exact tryFindFuzzy_load env name _ c rid h3
    by_cases hne : resolveTeamId env id ≠ id
    · rw [if_pos hne] at h
      cases hres : env.load (resolveTeamId env id) with
      | some cache =>
        rw [hres] at h
        have h2 : some (cache, resolveTeamId env id) = some (c, rid) := h
        exact ⟨resolveTeamId env id,
          by rw [hres]; exact congrArg (fun p => some p.1) (Option.some_inj.mp h2)⟩
      | none =>
        rw [hres] at h
        exact hrest h
    · rw [if_neg hne] at h
      exact hrest h

/-- Permuting a game list permutes its gameId column. -/
theorem gameIds_perm {l1 l2 : List GameStats} (h : l1.Perm l2) :
    (gameIds l1).Perm (gameIds l2) := h.map _

/-- The games stored by buildStatsCache are a permutation (date-sort) of its input. -/
theorem buildStatsCache_games_perm (mexp : ℚ → ℚ) (now : Int) (id name : String)
    (games : List GameStats) :
    (buildStatsCache mexp now id name games).games.Perm games := by
  unfold buildStatsCache
  exact jsMergeSort_perm gameDateLe games

/-- Every cache the manager returns has pairwise-distinct gameIds, given the detail-feed contract and well-formed stored caches. -/
theorem getOrUpdateTeamStats_nodup (env : Env) (id name : String)
    (hWF : WFDetail env) (hL : WFLoad env) :
    (gameIds (getOrUpdateTeamStats env id name).result.cache.games).Nodup := by
  unfold getOrUpdateTeamStats
  cases htry : tryFindTeamCache env id name with
  | some pr =>
    obtain ⟨existingCache, resolvedId⟩ := pr
    obtain ⟨s, hs⟩ := tryFindTeamCache_load env id name existingCache resolvedId htry
    have hex : (gameIds existingCache.games).Nodup := hL s existingCache hs
    dsimp only
    split
    · exact hex
    · split
      · exact hex
      · split
        · split
          · exact buildStatsCache_nodup _ _ _ _ _
              (fetchTeamGameHistory_nodup env resolvedId existingCache.teamName 30 hWF)
          · exact hex
        · exact buildStatsCache_nodup _ _ _ _ _
            (mergeNewGames_nodup _ _ hex
              (fetchTeamGameHistory_nodup env resolvedId existingCache.teamName 7 hWF))
  | none =>
    dsimp only
    split
    · exact buildStatsCache_nodup _ _ _ _ _ (fetchTeamGameHistory_nodup env id name 30 hWF)
    · simp [createEmptyCache, gameIds]

/-- A duplicate-free list drawn from l2 is no longer than the distinct elements of l2. -/
theorem nodup_length_le_dedup {l1 l2 : List String} (h1 : l1.Nodup) (h2 : l1 ⊆ l2) :
    l1.length ≤ l2.dedup.length :=
  (h1.subperm (fun _ ha => List.mem_dedup.mpr (h2 ha))).length_le

/-- Two sequential incremental refreshes (merge then rebuild, twice) are bounded by the distinct gameId count of everything seen. -/
theorem sequentialMerge_bound (mexp : ℚ → ℚ) (now1 now2 : Int)
    (id1 name1 id2 name2 : String) (g0 f1 f2 : List GameStats)
    (h0 : (gameIds g0).Nodup) (h1 : (gameIds f1).Nodup) (h2 : (gameIds f2).Nodup) :
    (buildStatsCache mexp now2 id2 name2
      (mergeNewGames
        (buildStatsCache mexp now1 id1 name1 (mergeNewGames g0 f1)).games f2)).games.length
      ≤ (gameIds (g0 ++ f1 ++ f2)).dedup.length := by
  have hperm1 := buildStatsCache_games_perm mexp now1 id1 name1 (mergeNewGames g0 f1)
  have hp1 := gameIds_perm hperm1
  have hn1 : (gameIds (buildStatsCache mexp now1 id1 name1
      (mergeNewGames g0 f1)).games).Nodup :=
    hp1.nodup_iff.mpr (mergeNewGames_nodup g0 f1 h0 h1)
  have hsub1 : gameIds (buildStatsCache mexp now1 id1 name1
      (mergeNewGames g0 f1)).games ⊆ gameIds g0 ++ gameIds f1 :=
    fun _ ha => mergeNewGames_subset g0 f1 (hp1.subset ha)
  have hperm2 := buildStatsCache_games_perm mexp now2 id2 name2
    (mergeNewGames (buildStatsCache mexp now1 id1 name1 (mergeNewGames g0 f1)).games f2)
  have hp2 := gameIds_perm hperm2
  have hn2 := hp2.nodup_iff.mpr (mergeNewGames_nodup _ f2 hn1 h2)
  have hsub2 : gameIds (buildStatsCache mexp now2 id2 name2
      (mergeNewGames (buildStatsCache mexp now1 id1 name1
        (mergeNewGames g0 f1)).games f2)).games ⊆
      gameIds g0 ++ gameIds f1 ++ gameIds f2 := by
    intro a ha
    rcases List.mem_append.mp (mergeNewGames_subset _ f2 (hp2.subset ha)) with h | h
    · exact List.mem_append_left _ (hsub1 h)
    · exact List.mem_append_right _ h
  have hlen : (buildStatsCache mexp now2 id2 name2
      (mergeNewGames (buildStatsCache mexp now1 id1 name1
        (mergeNewGames g0 f1)).games f2)).games.length =
      (gameIds (buildStatsCache mexp now2 id2 name2
        (mergeNewGames (buildStatsCache mexp now1 id1 name1
          (mergeNewGames g0 f1)).games f2)).games).length := by
    simp [gameIds]
  rw [hlen, show gameIds (g0 ++ f1 ++ f2) = gameIds g0 ++ gameIds f1 ++ gameIds f2 by
    simp [gameIds]]
  exact nodup_length_le_dedup hn2 hsub2

/-- C4: gameIds are pairwise distinct in every fetched game list and in every cache the
manager produces (given the detail-feed contract and well-formed stored caches), and two
sequential incremental refreshes over overlapping game lists never yield more cache
entries than the number of distinct gameIds seen. -/
theorem c4_gameid_uniqueness :
    (∀ (env : Env) (id name : String) (n : Nat), WFDetail env →
      (gameIds (fetchTeamGameHistory env id name n)).Nodup) ∧
    (∀ (env : Env) (id name : String), WFDetail env → WFLoad env →
      (gameIds (getOrUpdateTeamStats env id name).result.cache.games).Nodup) ∧
    (∀ (mexp : ℚ → ℚ) (now1 now2 : Int) (id1 name1 id2 name2 : String)
      (g0 f1 f2 : List GameStats),
      (gameIds g0).Nodup → (gameIds f1).Nodup → (gameIds f2).Nodup →
      (buildStatsCache mexp now2 id2 name2
        (mergeNewGames
          (buildStatsCache mexp now1 id1 name1 (mergeNewGames g0 f1)).games f2)).games.length
        ≤ (gameIds (g0 ++ f1 ++ f2)).dedup.length) :=
  ⟨fun env id name n hWF => fetchTeamGameHistory_nodup env id name n hWF,
   fun env id name hWF hL => getOrUpdateTeamStats_nodup env id name hWF hL,
   fun mexp now1 now2 id1 name1 id2 name2 g0 f1 f2 h0 h1 h2 =>
     sequentialMerge_bound mexp now1 now2 id1 name1 id2 name2 g0 f1 f2 h0 h1 h2⟩

/-- Witness: the C4 invariants applied to the all-failing environment and to concrete
overlapping game lists built from the sample games. -/
theorem c4_gameid_uniqueness_witness :
    (gameIds (fetchTeamGameHistory envAllFail "duke" "Duke" 3)).Nodup ∧
    (gameIds (getOrUpdateTeamStats envAllFail "duke" "Duke").result.cache.games).Nodup ∧
    (buildStatsCache (fun q => q) 10 "duke" "Duke"
      (mergeNewGames
        (buildStatsCache (fun q => q) 5 "duke" "Duke"
          (mergeNewGames [sampleGame1] [sampleGame1, sampleGame2])).games
        [sampleGame2])).games.length
      ≤ (gameIds ([sampleGame1] ++ [sampleGame1, sampleGame2] ++ [sampleGame2])).dedup.length :=
  ⟨c4_gameid_uniqueness.1 envAllFail "duke" "Duke" 3
    (fun _ _ h => Option.noConfusion h),
   c4_gameid_uniqueness.2.1 envAllFail "duke" "Duke"
    (fun _ _ h => Option.noConfusion h) (fun _ _ h => Option.noConfusion h),
   c4_gameid_uniqueness.2.2 (fun q => q) 5 10 "duke" "Duke" "duke" "Duke"
    [sampleGame1] [sampleGame1, sampleGame2] [sampleGame2]
    (by decide) (by decide) (by decide)⟩
